import Mathlib

/-!
# Verification of `msg_load_folder` (folder-ingestion and indexing engine)

Shallow embedding of `src/lib.rs`: the pure identifier-extraction helpers
(`id_from_filename_with_extension`, `is_hidden_file`) and the reconciliation
system `load_assets_from_folder`, together with proofs of the spec's claims
about them.

The external collaborators (Bevy's `AssetServer`, `Assets<LoadedFolder>`,
`Assets<A>`) are modelled as an explicit environment record of query
functions; one invocation of the system is a pure function from
(environment, config, `AssetFolderHandle`, `AssetFolder`) to the updated
(`AssetFolderHandle`, `AssetFolder`).
-/

namespace MsgLoadFolder

/-- One component of a normalized filesystem path, mirroring Rust's
`std::path::Component` (the `Prefix` variant is Windows-only and omitted). -/
inductive Component where
  | rootDir
  | curDir
  | parentDir
  | normal (name : String)
deriving DecidableEq, Repr

/-- A filesystem path, modelled as its normalized component list
(what Rust's `Path::components()` yields). -/
abbrev RPath := List Component

/-- Rust `Path::file_name()`: the last component if it is a `Normal`
component, `None` for an empty path or a path ending in a root or `..`
component. (`to_string_lossy` is the identity here since modelled names
are already Unicode strings.) -/
def file_name (p : RPath) : Option String :=
  match p.getLast? with
  | some (Component.normal s) => some s
  | _ => none

/-- Rendering of a single path component back to text. -/
def componentText : Component → String
  | Component.rootDir => "/"
  | Component.curDir => "."
  | Component.parentDir => ".."
  | Component.normal s => s

/-- Rust `path.to_string_lossy().to_string()`: the textual form of a path
(components joined by `/`). Only used as an opaque key into
`failed_paths`; none of the claims depend on the exact join convention. -/
def pathToString (p : RPath) : String :=
  String.mk (List.intercalate "/".data (p.map (fun c => (componentText c).data)))

/-- Rust `str::ends_with`, stated on the character list so that it
computes by kernel reduction. -/
def str_ends_with (s suffix : String) : Bool :=
  suffix.data.isSuffixOf s.data

/-- Rust `str::starts_with`, stated on the character list. -/
def str_starts_with (s pre : String) : Bool :=
  pre.data.isPrefixOf s.data

/-- Rust `str::is_empty`. -/
def str_is_empty (s : String) : Bool :=
  s.data.isEmpty

/-- Drop the last `n` characters of a string. -/
def str_drop_right (s : String) (n : Nat) : String :=
  String.mk (s.data.take (s.data.length - n))

/-- Rust `str::strip_suffix`: `Some` of the string with `suffix` removed
from the end when it ends with `suffix`, else `None`. -/
def rust_strip_suffix (s suffix : String) : Option String :=
  if str_ends_with s suffix then some (str_drop_right s suffix.length)
  else none

/-- `id_from_filename_with_extension` from `src/lib.rs` (lines 518-548),
generic over the identifier type via the `From<String>` conversion
`idFrom`. Returns `none` when the path has no filename, the filename does
not end with `extension`, or the stripped stem starts with `.` or `_` or
is empty; otherwise `some (idFrom stem)`. -/
def id_from_filename_with_extension {Id : Type} (idFrom : String → Id)
    (path : RPath) (extension : String) : Option Id :=
  match file_name path with
  | none => none
  | some filename =>
    if !(str_ends_with filename extension) then none
    else
      match rust_strip_suffix filename extension with
      | none => none
      | some id_str =>
        if str_starts_with id_str "." then none
        else if str_starts_with id_str "_" then none
        else if str_is_empty id_str then none
        else some (idFrom id_str)

/-- `id_from_filename` from `src/lib.rs` (lines 552-557): legacy alias. -/
def id_from_filename {Id : Type} (idFrom : String → Id)
    (path : RPath) (extension : String) : Option Id :=
  id_from_filename_with_extension idFrom path extension

/-- `is_hidden_file` from `src/lib.rs` (lines 561-568): whether the path's
filename starts with `.` or `_`; `false` when there is no filename. -/
def is_hidden_file (path : RPath) : Bool :=
  ((file_name path).map
    (fun name => str_starts_with name "." || str_starts_with name "_")).getD false

/-! ## Data model of the loading system -/

/-- Per-file load state reported by the external loader, mirroring
`bevy::asset::LoadState` (the `Failed` error payload is unused by the
code and omitted). -/
inductive LoadState where
  | NotLoaded
  | Loading
  | Loaded
  | Failed
deriving DecidableEq, Repr

/-- An untyped handle to a discovered file, as found in
`LoadedFolder::handles`. `hid` is the handle's identity (two handles with
equal ids denote the same underlying asset, so the external loader's
per-handle queries are keyed on the whole value); `path?` is
`UntypedHandle::path()`. -/
structure FileHandle where
  hid : Nat
  path? : Option RPath
deriving DecidableEq, Repr

/-- A `LoadedFolder`: the member-file handle list produced by folder
discovery. -/
structure Folder where
  handles : List FileHandle
deriving DecidableEq, Repr

/-- The external collaborators polled by one invocation of the system:
`AssetServer.load_folder`, `Assets<LoadedFolder>.get`,
`AssetServer.get_load_state` and `Assets<A>.get(..).is_some()`.
Folder-discovery tokens (`Handle<LoadedFolder>`) are modelled as `Nat`. -/
structure Env where
  load_folder : String → Nat
  loaded_folders : Nat → Option Folder
  get_load_state : FileHandle → Option LoadState
  data_has : FileHandle → Bool

/-- `FolderLoaderConfig` from `src/lib.rs`: the folder path and the
filename suffix filter. -/
structure Config where
  folder_path : String
  file_extension : String
deriving DecidableEq, Repr

/-- `AssetFolderHandle<A>` from `src/lib.rs` (lines 186-196): the
per-folder load state. -/
structure AssetFolderHandle where
  handle : Option Nat
  loaded : Bool
  failed_paths : List String
deriving DecidableEq, Repr

/-- `AssetFolderHandle::new` (lines 207-214). -/
def AssetFolderHandle.new : AssetFolderHandle :=
  { handle := none, loaded := false, failed_paths := [] }

/-- `AssetFolderHandle::is_loading` (lines 218-220). -/
def AssetFolderHandle.is_loading (h : AssetFolderHandle) : Bool :=
  h.handle.isSome && !h.loaded

/-- `AssetFolderHandle::is_loaded` (lines 224-226). -/
def AssetFolderHandle.is_loaded (h : AssetFolderHandle) : Bool :=
  h.loaded

/-- `AssetFolder<Id, A>` from `src/lib.rs` (lines 267-275): the
identifier-to-handle index. The Rust `HashMap<Id, Handle<A>>` is modelled
as an association list whose keys are kept unique by `insert`'s
key-replacement semantics; iteration order is irrelevant to the claims. -/
structure AssetFolder (Id : Type) where
  assets : List (Id × FileHandle)
deriving DecidableEq

/-- `AssetFolder::new` (lines 295-299). -/
def AssetFolder.new {Id : Type} : AssetFolder Id := ⟨[]⟩

/-- `AssetFolder::contains` (lines 320-322): `HashMap::contains_key`. -/
def AssetFolder.contains {Id : Type} [DecidableEq Id]
    (l : AssetFolder Id) (id : Id) : Bool :=
  l.assets.any (fun p => p.1 = id)

/-- `AssetFolder::insert` (lines 314-316): `HashMap::insert` semantics —
replace the value when the key is present, otherwise add the new entry. -/
def AssetFolder.insert {Id : Type} [DecidableEq Id]
    (l : AssetFolder Id) (id : Id) (h : FileHandle) : AssetFolder Id :=
  if l.contains id then
    ⟨l.assets.map (fun p => if p.1 = id then (id, h) else p)⟩
  else
    ⟨l.assets ++ [(id, h)]⟩

/-- `AssetFolder::len` (lines 337-339). -/
def AssetFolder.len {Id : Type} (l : AssetFolder Id) : Nat :=
  l.assets.length

/-- `AssetFolder::is_empty` (lines 343-345). -/
def AssetFolder.is_empty {Id : Type} (l : AssetFolder Id) : Bool :=
  l.assets.isEmpty

/-- The keys of the index, for stating uniqueness/membership facts. -/
def AssetFolder.keyList {Id : Type} (l : AssetFolder Id) : List Id :=
  l.assets.map Prod.fst

/-! ## The reconciliation system `load_assets_from_folder` -/

/-- The loop-carried state of one pass over `folder.handles`
(`load_assets_from_folder` lines 405-476): the mutable
`folder_handle.failed_paths`, the mutable `library`, and the two local
counters `pending_assets` and `loaded_count`. -/
structure PassSt (Id : Type) where
  failed_paths : List String
  library : AssetFolder Id
  pending_assets : Nat
  loaded_count : Nat

/-- The body of `for handle in &folder.handles` in
`load_assets_from_folder` (lines 409-476): skip handles without a path,
skip files with no derivable id, count already-registered ids as loaded,
skip quarantined paths, and otherwise classify by the external loader's
load state. -/
def processFile {Id : Type} [DecidableEq Id] (env : Env) (cfg : Config)
    (idFrom : String → Id) (st : PassSt Id) (handle : FileHandle) :
    PassSt Id :=
  match handle.path? with
  | none => st
  | some path =>
    match id_from_filename_with_extension idFrom path cfg.file_extension with
    | none => st
    | some id =>
      if st.library.contains id then
        { st with loaded_count := st.loaded_count + 1 }
      else if pathToString path ∈ st.failed_paths then
        st
      else
        match env.get_load_state handle with
        | some LoadState.Loaded =>
          if env.data_has handle then
            { st with library := st.library.insert id handle,
                      loaded_count := st.loaded_count + 1 }
          else
            { st with pending_assets := st.pending_assets + 1 }
        | some LoadState.Failed =>
          { st with failed_paths := st.failed_paths ++ [pathToString path] }
        | some LoadState.Loading =>
          { st with pending_assets := st.pending_assets + 1 }
        | none =>
          { st with pending_assets := st.pending_assets + 1 }
        | some LoadState.NotLoaded =>
          { st with pending_assets := st.pending_assets + 1 }

/-- One full pass over the discovered member-file list, starting from the
current `failed_paths` and `library` with both counters at zero. -/
def runPass {Id : Type} [DecidableEq Id] (env : Env) (cfg : Config)
    (idFrom : String → Id) (folder : Folder)
    (folder_handle : AssetFolderHandle) (library : AssetFolder Id) :
    PassSt Id :=
  folder.handles.foldl (processFile env cfg idFrom)
    { failed_paths := folder_handle.failed_paths, library := library,
      pending_assets := 0, loaded_count := 0 }

/-- `load_assets_from_folder` from `src/lib.rs` (lines 375-498), one
invocation: start folder discovery if it has not started; return if
already processed; wait for the member list; otherwise run one pass and
mark the folder loaded when nothing is pending. Returns the updated
(`AssetFolderHandle`, `AssetFolder`) pair. -/
def load_assets_from_folder {Id : Type} [DecidableEq Id] (env : Env)
    (cfg : Config) (idFrom : String → Id)
    (folder_handle : AssetFolderHandle) (library : AssetFolder Id) :
    AssetFolderHandle × AssetFolder Id :=
  if folder_handle.handle.isNone then
    ({ folder_handle with
        handle := some (env.load_folder cfg.folder_path) }, library)
  else if folder_handle.loaded then
    (folder_handle, library)
  else
    match folder_handle.handle with
    | none => (folder_handle, library)
    | some tok =>
      match env.loaded_folders tok with
      | none => (folder_handle, library)
      | some folder =>
        let st := runPass env cfg idFrom folder folder_handle library
        if st.pending_assets = 0 then
          ({ folder_handle with failed_paths := st.failed_paths, loaded := true }, st.library)
        else
          ({ folder_handle with failed_paths := st.failed_paths }, st.library)

/-- Repeated invocation of the system: `runUpTo envs cfg idFrom st n` is
the (`AssetFolderHandle`, `AssetFolder`) pair after `n` invocations, the
`t`-th of which polls the external world `envs t`. -/
def runUpTo {Id : Type} [DecidableEq Id] (envs : Nat → Env) (cfg : Config)
    (idFrom : String → Id) (st : AssetFolderHandle × AssetFolder Id) :
    Nat → AssetFolderHandle × AssetFolder Id
  | 0 => st
  | n + 1 =>
    let prev := runUpTo envs cfg idFrom st n
    load_assets_from_folder (envs n) cfg idFrom prev.1 prev.2

/-! ## Spec-side definition for the identifier-extraction claim -/

/-- The specification's own description of identifier extraction
(spec §4.1 / §8), written from the spec's words for comparison with the
code's `id_from_filename_with_extension`: for a filename `stem + suffix`,
return `Identifier::from(stem)` iff the stem is non-empty and does not
start with `.` or `_`; in every other case (including a missing filename
or a non-matching suffix) return "not applicable". -/
def derive_id_spec {Id : Type} (idFrom : String → Id) (path : RPath)
    (suffix : String) : Option Id :=
  match file_name path with
  | none => none
  | some filename =>
    if str_ends_with filename suffix then
      let stem := str_drop_right filename suffix.length
      if str_is_empty stem || str_starts_with stem "." ||
          str_starts_with stem "_" then none
      else some (idFrom stem)
    else none

/-! ## Fresh-insert variant (for the insert-only-when-absent claim) -/

/-- Insertion that unconditionally appends a new entry, never replacing an
existing key. Agreement of the loop built on this variant with the real
loop expresses that the loop never calls `insert` for an identifier that
is already present in the index. -/
def AssetFolder.insertNew {Id : Type} (l : AssetFolder Id) (id : Id)
    (h : FileHandle) : AssetFolder Id :=
  ⟨l.assets ++ [(id, h)]⟩

/-- `processFile` with `AssetFolder.insert` replaced by
`AssetFolder.insertNew`; otherwise identical. -/
def processFileFresh {Id : Type} [DecidableEq Id] (env : Env) (cfg : Config)
    (idFrom : String → Id) (st : PassSt Id) (handle : FileHandle) :
    PassSt Id :=
  match handle.path? with
  | none => st
  | some path =>
    match id_from_filename_with_extension idFrom path cfg.file_extension with
    | none => st
    | some id =>
      if st.library.contains id then
        { st with loaded_count := st.loaded_count + 1 }
      else if pathToString path ∈ st.failed_paths then
        st
      else
        match env.get_load_state handle with
        | some LoadState.Loaded =>
          if env.data_has handle then
            { st with library := st.library.insertNew id handle,
                      loaded_count := st.loaded_count + 1 }
          else
            { st with pending_assets := st.pending_assets + 1 }
        | some LoadState.Failed =>
          { st with failed_paths := st.failed_paths ++ [pathToString path] }
        | some LoadState.Loading =>
          { st with pending_assets := st.pending_assets + 1 }
        | none =>
          { st with pending_assets := st.pending_assets + 1 }
        | some LoadState.NotLoaded =>
          { st with pending_assets := st.pending_assets + 1 }

/-- `load_assets_from_folder` with `AssetFolder.insert` replaced by
`AssetFolder.insertNew` in the pass body; otherwise identical. -/
def load_assets_from_folder_fresh {Id : Type} [DecidableEq Id] (env : Env)
    (cfg : Config) (idFrom : String → Id)
    (folder_handle : AssetFolderHandle) (library : AssetFolder Id) :
    AssetFolderHandle × AssetFolder Id :=
  if folder_handle.handle.isNone then
    ({ folder_handle with
        handle := some (env.load_folder cfg.folder_path) }, library)
  else if folder_handle.loaded then
    (folder_handle, library)
  else
    match folder_handle.handle with
    | none => (folder_handle, library)
    | some tok =>
      match env.loaded_folders tok with
      | none => (folder_handle, library)
      | some folder =>
        let st := folder.handles.foldl (processFileFresh env cfg idFrom)
          { failed_paths := folder_handle.failed_paths, library := library,
            pending_assets := 0, loaded_count := 0 }
        if st.pending_assets = 0 then
          ({ folder_handle with failed_paths := st.failed_paths, loaded := true }, st.library)
        else
          ({ folder_handle with failed_paths := st.failed_paths }, st.library)

/-! ## Query-traced variant (for the no-retry claim) -/

/-- `processFile` instrumented with the list of path strings for which
`env.get_load_state` is actually consulted: the query happens exactly when
the file has a path, yields an identifier, is not yet registered, and is
not quarantined. The first component follows `processFile` exactly. -/
def processFileTraced {Id : Type} [DecidableEq Id] (env : Env)
    (cfg : Config) (idFrom : String → Id) (st : PassSt Id × List String)
    (handle : FileHandle) : PassSt Id × List String :=
  match handle.path? with
  | none => st
  | some path =>
    match id_from_filename_with_extension idFrom path cfg.file_extension with
    | none => st
    | some id =>
      if st.1.library.contains id then
        ({ st.1 with loaded_count := st.1.loaded_count + 1 }, st.2)
      else if pathToString path ∈ st.1.failed_paths then
        st
      else
        (processFile env cfg idFrom st.1 handle, st.2 ++ [pathToString path])

/-- The path strings whose load state one full invocation of
`load_assets_from_folder` queries from the external loader. -/
def invocationQueries {Id : Type} [DecidableEq Id] (env : Env)
    (cfg : Config) (idFrom : String → Id)
    (folder_handle : AssetFolderHandle) (library : AssetFolder Id) :
    List String :=
  if folder_handle.handle.isNone then []
  else if folder_handle.loaded then []
  else
    match folder_handle.handle with
    | none => []
    | some tok =>
      match env.loaded_folders tok with
      | none => []
      | some folder =>
        (folder.handles.foldl (processFileTraced env cfg idFrom)
          ({ failed_paths := folder_handle.failed_paths, library := library,
             pending_assets := 0, loaded_count := 0 }, [])).2

/-! ## Convergence: verdicts of the external loader -/

/-- The derived identifier of a discovered handle, when it has one. -/
def eligId {Id : Type} (idFrom : String → Id) (cfg : Config)
    (h : FileHandle) : Option Id :=
  match h.path? with
  | none => none
  | some p => id_from_filename_with_extension idFrom p cfg.file_extension

/-- The path string of a discovered handle (`""` when it has no path;
only used for handles that have one). -/
def handlePathStr (h : FileHandle) : String :=
  match h.path? with
  | none => ""
  | some p => pathToString p

/-- The eventual verdict "Loaded with retrievable content" under the
stabilized external world `E`. -/
def finalLoaded (E : Env) (h : FileHandle) : Bool :=
  decide (E.get_load_state h = some LoadState.Loaded) && E.data_has h

/-- The eventual verdict "Failed" under the stabilized external world
`E`. -/
def finalFailed (E : Env) (h : FileHandle) : Bool :=
  decide (E.get_load_state h = some LoadState.Failed)

/-- The external world `e` never contradicts the eventual verdicts of
`E` on handle `h`: any definitive answer it gives (Failed, or Loaded with
retrievable content) is the eventual one. Everything else it may answer
counts as still pending. -/
def consistentWith (e E : Env) (h : FileHandle) : Prop :=
  (e.get_load_state h = some LoadState.Failed → finalFailed E h = true) ∧
  (e.get_load_state h = some LoadState.Loaded → e.data_has h = true →
    finalLoaded E h = true)

/-- The eligible member files of a folder: those with a path from which an
identifier is derivable. -/
def eligibleHandles {Id : Type} (idFrom : String → Id) (cfg : Config)
    (folder : Folder) : List FileHandle :=
  folder.handles.filter (fun h => (eligId idFrom cfg h).isSome)

/-- The eligible member files whose eventual verdict is Loaded. -/
def loadedHandles {Id : Type} (idFrom : String → Id) (cfg : Config)
    (E : Env) (folder : Folder) : List FileHandle :=
  (eligibleHandles idFrom cfg folder).filter (finalLoaded E)

/-- The eligible member files whose eventual verdict is Failed. -/
def failedHandles {Id : Type} (idFrom : String → Id) (cfg : Config)
    (E : Env) (folder : Folder) : List FileHandle :=
  (eligibleHandles idFrom cfg folder).filter (finalFailed E)

/-- Index-entry soundness during reconciliation of `folder` against the
eventual verdicts `E`: the entry is a discovered handle's derived
identifier paired with that handle, and the handle's eventual verdict is
Loaded. -/
def GoodEntry {Id : Type} (idFrom : String → Id) (cfg : Config) (E : Env)
    (folder : Folder) (x : Id × FileHandle) : Prop :=
  x.2 ∈ folder.handles ∧ eligId idFrom cfg x.2 = some x.1 ∧
    finalLoaded E x.2 = true

/-- Quarantine soundness during reconciliation of `folder` against the
eventual verdicts `E`: the quarantined path string belongs to an eligible
discovered handle whose eventual verdict is Failed. -/
def GoodFailedPath {Id : Type} (idFrom : String → Id) (cfg : Config)
    (E : Env) (folder : Folder) (p : String) : Prop :=
  ∃ h, h ∈ folder.handles ∧ (eligId idFrom cfg h).isSome = true ∧
    finalFailed E h = true ∧ handlePathStr h = p

/-- Coverage of the eventual verdicts by a reconciliation state: every
eligible member file with eventual verdict Loaded has its identifier in
the index, and every one with eventual verdict Failed has its path string
quarantined. -/
def Complete {Id : Type} (idFrom : String → Id) (cfg : Config) (E : Env)
    (folder : Folder) (st : AssetFolderHandle × AssetFolder Id) : Prop :=
  ∀ hd ∈ folder.handles, ∀ i : Id, eligId idFrom cfg hd = some i →
    (finalLoaded E hd = true → i ∈ st.2.keyList) ∧
    (finalFailed E hd = true → handlePathStr hd ∈ st.1.failed_paths)

/-- Invariant of the repeated reconciliation of `folder` (discovered under
token `tok`) against the eventual verdicts `E`: the token is stored, every
index entry and quarantined path is sound for the eventual verdicts, keys
and quarantined paths are duplicate-free, and a terminal state also covers
all verdicts. -/
def LoopInv {Id : Type} (idFrom : String → Id) (cfg : Config) (E : Env)
    (folder : Folder) (tok : Nat)
    (st : AssetFolderHandle × AssetFolder Id) : Prop :=
  st.1.handle = some tok ∧
  (∀ x ∈ st.2.assets, GoodEntry idFrom cfg E folder x) ∧
  (∀ p ∈ st.1.failed_paths, GoodFailedPath idFrom cfg E folder p) ∧
  st.2.keyList.Nodup ∧
  st.1.failed_paths.Nodup ∧
  (st.1.loaded = true → Complete idFrom cfg E folder st)

/-! ## Concrete fixtures for counterexamples and witnesses -/

/-- An inert external world: discovery never completes, nothing is
loaded. -/
def env0 : Env :=
  { load_folder := fun _ => 0, loaded_folders := fun _ => none,
    get_load_state := fun _ => none, data_has := fun _ => false }

/-- The example configuration from the crate documentation. -/
def cfg0 : Config :=
  { folder_path := "prefabs/spells", file_extension := ".spell.ron" }

/-- Two distinct eligible files in different directories deriving the same
identifier stem `x`. -/
def handleColA : FileHandle :=
  { hid := 1,
    path? := some [Component.normal "a", Component.normal "x.spell.ron"] }

/-- Second file of the identifier collision pair. -/
def handleColB : FileHandle :=
  { hid := 2,
    path? := some [Component.normal "b", Component.normal "x.spell.ron"] }

/-- Folder whose two eligible member files collide on the derived
identifier. -/
def folderCol : Folder := { handles := [handleColA, handleColB] }

/-- External world in which `folderCol` is discovered and both its files
load successfully with retrievable content. -/
def envCol : Env :=
  { load_folder := fun _ => 7, loaded_folders := fun _ => some folderCol,
    get_load_state := fun _ => some LoadState.Loaded,
    data_has := fun _ => true }

/-- A file that loads successfully: `a.spell.ron`. -/
def handleOkA : FileHandle :=
  { hid := 1, path? := some [Component.normal "a.spell.ron"] }

/-- A file whose load fails: `b.spell.ron`. -/
def handleBadB : FileHandle :=
  { hid := 2, path? := some [Component.normal "b.spell.ron"] }

/-- Folder with one eventually-loaded and one eventually-failed file. -/
def folderMix : Folder := { handles := [handleOkA, handleBadB] }

/-- External world in which `folderMix` is discovered, `a.spell.ron` is
Loaded with retrievable content and `b.spell.ron` is Failed. -/
def envMix : Env :=
  { load_folder := fun _ => 3, loaded_folders := fun _ => some folderMix,
    get_load_state := fun h =>
      if h.hid = 1 then some LoadState.Loaded else some LoadState.Failed,
    data_has := fun h => h.hid = 1 }

/-! ## Basic lemmas about the index -/

/-- Membership test of the index agrees with membership in its key
list. -/
theorem AssetFolder.contains_iff {Id : Type} [DecidableEq Id]
    (l : AssetFolder Id) (id : Id) :
    l.contains id = true ↔ id ∈ l.keyList := by
  unfold AssetFolder.contains AssetFolder.keyList
  simp [List.any_eq_true, List.mem_map]

/-- Inserting an absent key appends the new entry. -/
theorem AssetFolder.insert_of_not_contains {Id : Type} [DecidableEq Id]
    (l : AssetFolder Id) (id : Id) (h : FileHandle)
    (hc : l.contains id = false) :
    (l.insert id h).assets = l.assets ++ [(id, h)] := by
  unfold AssetFolder.insert
  simp [hc]

/-! ## Branch analysis of one loop iteration -/

/-- Exhaustive branch analysis of `processFile`: every iteration of the
loop body either skips an ineligible file, counts an already-registered
identifier, skips a quarantined path, registers a loaded asset,
quarantines a failed one, or counts the file as pending. -/
theorem processFile_shape {Id : Type} [DecidableEq Id] (env : Env)
    (cfg : Config) (idFrom : String → Id) (st : PassSt Id)
    (hd : FileHandle) :
    (eligId idFrom cfg hd = none ∧ processFile env cfg idFrom st hd = st) ∨
    ∃ path id, hd.path? = some path ∧
      id_from_filename_with_extension idFrom path cfg.file_extension = some id ∧
      ((st.library.contains id = true ∧
          processFile env cfg idFrom st hd =
            { st with loaded_count := st.loaded_count + 1 }) ∨
       (st.library.contains id = false ∧ pathToString path ∈ st.failed_paths ∧
          processFile env cfg idFrom st hd = st) ∨
       (st.library.contains id = false ∧ pathToString path ∉ st.failed_paths ∧
         ((env.get_load_state hd = some LoadState.Loaded ∧
             env.data_has hd = true ∧
             processFile env cfg idFrom st hd =
               { st with library := st.library.insert id hd,
                         loaded_count := st.loaded_count + 1 }) ∨
          (env.get_load_state hd = some LoadState.Failed ∧
             processFile env cfg idFrom st hd =
               { st with failed_paths :=
                   st.failed_paths ++ [pathToString path] }) ∨
          ((env.get_load_state hd = some LoadState.Loading ∨
            env.get_load_state hd = none ∨
            env.get_load_state hd = some LoadState.NotLoaded ∨
            (env.get_load_state hd = some LoadState.Loaded ∧
              env.data_has hd = false)) ∧
             processFile env cfg idFrom st hd =
               { st with pending_assets := st.pending_assets + 1 })))) := by
  cases hp : hd.path? with
  | none =>
    refine Or.inl ⟨by simp [eligId, hp], ?_⟩
    unfold processFile
    rw [hp]
  | some path =>
    cases hid : id_from_filename_with_extension idFrom path cfg.file_extension with
    | none =>
      refine Or.inl ⟨by simp [eligId, hp, hid], ?_⟩
      unfold processFile
      rw [hp]
      simp [hid]
    | some id =>
      refine Or.inr ⟨path, id, rfl, hid, ?_⟩
      unfold processFile
      rw [hp]
      simp only [hid]
      cases hctn : st.library.contains id with
      | true => simp [hctn]
      | false =>
        by_cases hmem : pathToString path ∈ st.failed_paths
        · simp [hctn, hmem]
        · cases hls : env.get_load_state hd with
          | none => simp [hctn, hmem, hls]
          | some ls =>
            cases ls with
            | NotLoaded => simp [hctn, hmem, hls]
            | Loading => simp [hctn, hmem, hls]
            | Failed => simp [hctn, hmem, hls]
            | Loaded =>
              cases hdata : env.data_has hd with
              | true => simp [hctn, hmem, hls, hdata]
              | false => simp [hctn, hmem, hls, hdata]

/-- One loop iteration only ever appends to the quarantine list. -/
theorem processFile_failed_ext {Id : Type} [DecidableEq Id] (env : Env)
    (cfg : Config) (idFrom : String → Id) (st : PassSt Id)
    (hd : FileHandle) :
    ∃ t, (processFile env cfg idFrom st hd).failed_paths =
      st.failed_paths ++ t := by
  rcases processFile_shape env cfg idFrom st hd with ⟨-, he⟩ |
    ⟨path, id, hp, hid, ⟨-, he⟩ | ⟨-, -, he⟩ | ⟨-, -,
      ⟨-, -, he⟩ | ⟨-, he⟩ | ⟨-, he⟩⟩⟩
  · exact ⟨[], by simp [he]⟩
  · exact ⟨[], by simp [he]⟩
  · exact ⟨[], by simp [he]⟩
  · exact ⟨[], by simp [he]⟩
  · exact ⟨[pathToString path], by simp [he]⟩
  · exact ⟨[], by simp [he]⟩

/-- One loop iteration never removes or replaces an index entry. -/
theorem processFile_entries_subset {Id : Type} [DecidableEq Id] (env : Env)
    (cfg : Config) (idFrom : String → Id) (st : PassSt Id) (hd : FileHandle)
    (x : Id × FileHandle) (hx : x ∈ st.library.assets) :
    x ∈ (processFile env cfg idFrom st hd).library.assets := by
  rcases processFile_shape env cfg idFrom st hd with ⟨-, he⟩ |
    ⟨path, id, hp, hid, ⟨-, he⟩ | ⟨-, -, he⟩ | ⟨hc, -,
      ⟨-, -, he⟩ | ⟨-, he⟩ | ⟨-, he⟩⟩⟩
  · simpa [he] using hx
  · simpa [he] using hx
  · simpa [he] using hx
  · rw [he]
    simp only
    rw [AssetFolder.insert_of_not_contains _ _ _ hc]
    exact List.mem_append_left _ hx
  · simpa [he] using hx
  · simpa [he] using hx

/-- One loop iteration never shrinks the index. -/
theorem processFile_len_mono {Id : Type} [DecidableEq Id] (env : Env)
    (cfg : Config) (idFrom : String → Id) (st : PassSt Id)
    (hd : FileHandle) :
    st.library.len ≤ (processFile env cfg idFrom st hd).library.len := by
  rcases processFile_shape env cfg idFrom st hd with ⟨-, he⟩ |
    ⟨path, id, hp, hid, ⟨-, he⟩ | ⟨-, -, he⟩ | ⟨hc, -,
      ⟨-, -, he⟩ | ⟨-, he⟩ | ⟨-, he⟩⟩⟩
  · simp [he]
  · simp [he]
  · simp [he]
  · rw [he]
    simp [AssetFolder.len, AssetFolder.insert_of_not_contains _ _ _ hc]
  · simp [he]
  · simp [he]

/-- The pending counter never decreases within a pass. -/
theorem processFile_pending_mono {Id : Type} [DecidableEq Id] (env : Env)
    (cfg : Config) (idFrom : String → Id) (st : PassSt Id)
    (hd : FileHandle) :
    st.pending_assets ≤ (processFile env cfg idFrom st hd).pending_assets := by
  rcases processFile_shape env cfg idFrom st hd with ⟨-, he⟩ |
    ⟨path, id, hp, hid, ⟨-, he⟩ | ⟨-, -, he⟩ | ⟨-, -,
      ⟨-, -, he⟩ | ⟨-, he⟩ | ⟨-, he⟩⟩⟩ <;>
    simp [he]

/-- Whole-pass version of `processFile_failed_ext`. -/
theorem foldl_failed_ext {Id : Type} [DecidableEq Id] (env : Env)
    (cfg : Config) (idFrom : String → Id) (hs : List FileHandle) :
    ∀ st : PassSt Id,
      ∃ t, (hs.foldl (processFile env cfg idFrom) st).failed_paths =
        st.failed_paths ++ t := by
  induction hs with
  | nil => exact fun st => ⟨[], by simp⟩
  | cons hd tl ih =>
    intro st
    obtain ⟨t1, h1⟩ := processFile_failed_ext env cfg idFrom st hd
    obtain ⟨t2, h2⟩ := ih (processFile env cfg idFrom st hd)
    exact ⟨t1 ++ t2, by simp [List.foldl_cons, h2, h1]⟩

/-- Whole-pass version of `processFile_entries_subset`. -/
theorem foldl_entries_subset {Id : Type} [DecidableEq Id] (env : Env)
    (cfg : Config) (idFrom : String → Id) (hs : List FileHandle) :
    ∀ (st : PassSt Id) (x : Id × FileHandle), x ∈ st.library.assets →
      x ∈ ((hs.foldl (processFile env cfg idFrom) st)).library.assets := by
  induction hs with
  | nil => exact fun st x hx => hx
  | cons hd tl ih =>
    intro st x hx
    exact ih _ x (processFile_entries_subset env cfg idFrom st hd x hx)

/-- Whole-pass version of `processFile_len_mono`. -/
theorem foldl_len_mono {Id : Type} [DecidableEq Id] (env : Env)
    (cfg : Config) (idFrom : String → Id) (hs : List FileHandle) :
    ∀ st : PassSt Id,
      st.library.len ≤ ((hs.foldl (processFile env cfg idFrom) st)).library.len := by
  induction hs with
  | nil => exact fun st => le_refl _
  | cons hd tl ih =>
    intro st
    exact le_trans (processFile_len_mono env cfg idFrom st hd) (ih _)

/-- Whole-pass version of `processFile_pending_mono`. -/
theorem foldl_pending_mono {Id : Type} [DecidableEq Id] (env : Env)
    (cfg : Config) (idFrom : String → Id) (hs : List FileHandle) :
    ∀ st : PassSt Id,
      st.pending_assets ≤ ((hs.foldl (processFile env cfg idFrom) st)).pending_assets := by
  induction hs with
  | nil => exact fun st => le_refl _
  | cons hd tl ih =>
    intro st
    exact le_trans (processFile_pending_mono env cfg idFrom st hd) (ih _)

/-- An invocation on a state whose discovery handle is present and whose
terminal flag is set returns the state unchanged. -/
theorem pass_terminal_id {Id : Type} [DecidableEq Id] (env : Env)
    (cfg : Config) (idFrom : String → Id) (fh : AssetFolderHandle)
    (lib : AssetFolder Id) (hl : fh.loaded = true)
    (hh : fh.handle.isSome = true) :
    load_assets_from_folder env cfg idFrom fh lib = (fh, lib) := by
  have h1 : fh.handle.isNone = false := by
    cases hx : fh.handle with
    | none => rw [hx] at hh; simp at hh
    | some a => rfl
  unfold load_assets_from_folder
  simp [h1, hl]

/-! ## Claim C1: identifier extraction matches the spec -/

/-- C1: for every path and suffix, `id_from_filename_with_extension`
returns `Identifier::from(stem)` — `stem` being the filename with the
suffix stripped — iff the filename ends with the suffix and the stem is
non-empty and does not start with `.` or `_`, and returns `None` in every
other case; i.e. it coincides with the spec-side `derive_id_spec`. -/
theorem id_extraction_matches_spec {Id : Type} (idFrom : String → Id)
    (path : RPath) (ext : String) :
    id_from_filename_with_extension idFrom path ext =
      derive_id_spec idFrom path ext := by
  unfold id_from_filename_with_extension derive_id_spec rust_strip_suffix
  cases hfn : file_name path with
  | none => rfl
  | some fn =>
    cases he : str_ends_with fn ext with
    | false => simp [he]
    | true =>
      cases h1 : str_starts_with (str_drop_right fn ext.length) "." <;>
        cases h2 : str_starts_with (str_drop_right fn ext.length) "_" <;>
          cases h3 : str_is_empty (str_drop_right fn ext.length) <;>
            simp [he, h1, h2, h3]

/-! ## Claim C8: identifier extraction is total -/

/-- C8: `id_from_filename_with_extension` is a total pure function: for
every input it returns either "not applicable" or an identifier built by
`Identifier::from` from a non-empty stem that starts with neither `.`
nor `_`; there is no other outcome (and, being a Lean function, it
terminates and has no side effects). -/
theorem id_extraction_total {Id : Type} (idFrom : String → Id)
    (path : RPath) (ext : String) :
    id_from_filename_with_extension idFrom path ext = none ∨
    ∃ stem, str_is_empty stem = false ∧ str_starts_with stem "." = false ∧
      str_starts_with stem "_" = false ∧
      id_from_filename_with_extension idFrom path ext = some (idFrom stem) := by
  unfold id_from_filename_with_extension rust_strip_suffix
  cases hfn : file_name path with
  | none => exact Or.inl rfl
  | some fn =>
    cases he : str_ends_with fn ext with
    | false => simp [he]
    | true =>
      cases h1 : str_starts_with (str_drop_right fn ext.length) "." <;>
        cases h2 : str_starts_with (str_drop_right fn ext.length) "_" <;>
          cases h3 : str_is_empty (str_drop_right fn ext.length) <;>
            simp [he, h1, h2, h3]
      exact ⟨str_drop_right fn ext.length, h3, h1, h2, rfl⟩

/-! ## Claim C10: `is_hidden_file` on paths without a filename -/

/-- C10: for every path with no filename component (a root path, an empty
path, or a path ending in `..`), `is_hidden_file` returns `false` rather
than failing or returning `true`. -/
theorem is_hidden_file_no_filename (path : RPath)
    (h : file_name path = none) : is_hidden_file path = false := by
  unfold is_hidden_file
  rw [h]
  rfl

/-- Witness for C10 at the root path and at a path ending in `..`. -/
theorem is_hidden_file_no_filename_witness :
    is_hidden_file [Component.rootDir] = false ∧
    is_hidden_file [Component.normal ".secret", Component.parentDir] = false :=
  ⟨is_hidden_file_no_filename [Component.rootDir] rfl,
   is_hidden_file_no_filename
     [Component.normal ".secret", Component.parentDir] rfl⟩

/-! ## Claim C2: invocations on a terminal state -/

/-- C2 (counterexample): the claim quantifies over every folder load state
with `loaded = true`, but on the state with `loaded = true` and
`handle = None` the code's first branch (the `handle.is_none()` check,
which precedes the `loaded` check) stores a fresh discovery handle, so the
state is not left unchanged. -/
theorem terminal_invocation_not_identity_ce :
    load_assets_from_folder env0 cfg0 (fun s => s)
        { handle := none, loaded := true, failed_paths := [] }
        AssetFolder.new ≠
      ({ handle := none, loaded := true, failed_paths := [] },
        AssetFolder.new) := by
  decide

/-- C2 (amended): for every folder load state whose terminal flag is true
and whose discovery handle is present, invoking the reconciliation loop
any number of times leaves the `AssetFolderHandle` and the index
byte-for-byte unchanged. -/
theorem terminal_invocation_identity_of_handle_present {Id : Type}
    [DecidableEq Id] (envs : Nat → Env) (cfg : Config)
    (idFrom : String → Id) (fh : AssetFolderHandle) (lib : AssetFolder Id)
    (hl : fh.loaded = true) (hh : fh.handle.isSome = true) (n : Nat) :
    runUpTo envs cfg idFrom (fh, lib) n = (fh, lib) := by
  induction n with
  | zero => rfl
  | succ n ih =>
    show load_assets_from_folder (envs n) cfg idFrom
      (runUpTo envs cfg idFrom (fh, lib) n).1
      (runUpTo envs cfg idFrom (fh, lib) n).2 = (fh, lib)
    rw [ih]
    exact pass_terminal_id (envs n) cfg idFrom fh lib hl hh

/-- Witness for the amended C2: five invocations on a concrete terminal
state with a present handle change nothing. -/
theorem terminal_invocation_identity_witness :
    runUpTo (fun _ => env0) cfg0 (fun s => s)
        ({ handle := some 0, loaded := true, failed_paths := ["p"] },
          AssetFolder.new) 5 =
      ({ handle := some 0, loaded := true, failed_paths := ["p"] },
        AssetFolder.new) :=
  terminal_invocation_identity_of_handle_present (fun _ => env0) cfg0
    (fun s => s) { handle := some 0, loaded := true, failed_paths := ["p"] }
    AssetFolder.new rfl rfl 5

/-! ## Claim C3: monotonicity across a single invocation -/

/-- C3: across every single invocation, from any state: the index never
loses an entry and its length is non-decreasing, the quarantined-path
list is only ever appended to (the old list is a prefix of the new one),
and the terminal flag never goes from true to false. -/
theorem single_invocation_monotonicity {Id : Type} [DecidableEq Id]
    (env : Env) (cfg : Config) (idFrom : String → Id)
    (fh : AssetFolderHandle) (lib : AssetFolder Id) :
    (∀ x ∈ lib.assets,
      x ∈ (load_assets_from_folder env cfg idFrom fh lib).2.assets) ∧
    lib.len ≤ (load_assets_from_folder env cfg idFrom fh lib).2.len ∧
    (∃ t, (load_assets_from_folder env cfg idFrom fh lib).1.failed_paths =
      fh.failed_paths ++ t) ∧
    (fh.loaded = true →
      (load_assets_from_folder env cfg idFrom fh lib).1.loaded = true) := by
  unfold load_assets_from_folder
  split
  · exact ⟨fun x hx => hx, le_refl _, ⟨[], by simp⟩, fun hl => hl⟩
  · split
    · exact ⟨fun x hx => hx, le_refl _, ⟨[], by simp⟩, fun hl => hl⟩
    · split
      · exact ⟨fun x hx => hx, le_refl _, ⟨[], by simp⟩, fun hl => hl⟩
      · split
        · exact ⟨fun x hx => hx, le_refl _, ⟨[], by simp⟩, fun hl => hl⟩
        · simp only [runPass]
          split
          · exact ⟨fun x hx => foldl_entries_subset env cfg idFrom _ _ x hx,
              foldl_len_mono env cfg idFrom _ ⟨fh.failed_paths, lib, 0, 0⟩,
              foldl_failed_ext env cfg idFrom _ ⟨fh.failed_paths, lib, 0, 0⟩,
              fun _ => rfl⟩
          · exact ⟨fun x hx => foldl_entries_subset env cfg idFrom _ _ x hx,
              foldl_len_mono env cfg idFrom _ ⟨fh.failed_paths, lib, 0, 0⟩,
              foldl_failed_ext env cfg idFrom _ ⟨fh.failed_paths, lib, 0, 0⟩,
              fun hl => hl⟩

/-- Witness for C3 at a concrete invocation whose starting state is
terminal (so the terminal-flag hypothesis of the last conjunct holds). -/
theorem single_invocation_monotonicity_witness :
    (∀ x ∈ (AssetFolder.new : AssetFolder String).assets,
      x ∈ (load_assets_from_folder env0 cfg0 (fun s => s)
        { handle := some 0, loaded := true, failed_paths := [] }
        AssetFolder.new).2.assets) ∧
    (AssetFolder.new : AssetFolder String).len ≤
      (load_assets_from_folder env0 cfg0 (fun s => s)
        { handle := some 0, loaded := true, failed_paths := [] }
        AssetFolder.new).2.len ∧
    (∃ t, (load_assets_from_folder env0 cfg0 (fun s => s)
        { handle := some 0, loaded := true, failed_paths := [] }
        AssetFolder.new).1.failed_paths = [] ++ t) ∧
    (load_assets_from_folder env0 cfg0 (fun s => s)
        { handle := some 0, loaded := true, failed_paths := [] }
        AssetFolder.new).1.loaded = true := by
  obtain ⟨a, b, c, d⟩ := single_invocation_monotonicity env0 cfg0
    (fun s => s)
    { handle := some 0, loaded := true, failed_paths := [] }
    AssetFolder.new
  exact ⟨a, b, c, d rfl⟩

/-! ## Claim C4: insert is only called for absent identifiers -/

/-- When the key is absent, `HashMap` insertion and blind appending
agree. -/
theorem AssetFolder.insert_eq_insertNew_of_not_contains {Id : Type}
    [DecidableEq Id] (l : AssetFolder Id) (id : Id) (h : FileHandle)
    (hc : l.contains id = false) :
    l.insert id h = l.insertNew id h := by
  unfold AssetFolder.insert AssetFolder.insertNew
  simp [hc]

/-- The key list after inserting an absent key. -/
theorem AssetFolder.keyList_insert_of_not_contains {Id : Type}
    [DecidableEq Id] (l : AssetFolder Id) (id : Id) (h : FileHandle)
    (hc : l.contains id = false) :
    (l.insert id h).keyList = l.keyList ++ [id] := by
  unfold AssetFolder.keyList
  rw [AssetFolder.insert_of_not_contains _ _ _ hc]
  simp

/-- One loop iteration behaves identically whether insertion replaces
existing keys or blindly appends: the loop guards every insertion by the
membership check. -/
theorem processFile_eq_fresh {Id : Type} [DecidableEq Id] (env : Env)
    (cfg : Config) (idFrom : String → Id) (st : PassSt Id)
    (hd : FileHandle) :
    processFile env cfg idFrom st hd = processFileFresh env cfg idFrom st hd := by
  cases hp : hd.path? with
  | none =>
    unfold processFile processFileFresh
    rw [hp]
  | some path =>
    cases hid : id_from_filename_with_extension idFrom path cfg.file_extension with
    | none =>
      unfold processFile processFileFresh
      rw [hp]
      simp [hid]
    | some id =>
      unfold processFile processFileFresh
      rw [hp]
      simp only [hid]
      cases hctn : st.library.contains id with
      | true => simp [hctn]
      | false =>
        by_cases hmem : pathToString path ∈ st.failed_paths
        · simp [hctn, hmem]
        · cases hls : env.get_load_state hd with
          | none => simp [hctn, hmem, hls]
          | some ls =>
            cases ls with
            | NotLoaded => simp [hctn, hmem, hls]
            | Loading => simp [hctn, hmem, hls]
            | Failed => simp [hctn, hmem, hls]
            | Loaded =>
              cases hdata : env.data_has hd with
              | true =>
                simp [hctn, hmem, hls, hdata,
                  AssetFolder.insert_eq_insertNew_of_not_contains _ _ _ hctn]
              | false => simp [hctn, hmem, hls, hdata]

/-- Whole-pass version of `processFile_eq_fresh`. -/
theorem foldl_fresh_eq {Id : Type} [DecidableEq Id] (env : Env)
    (cfg : Config) (idFrom : String → Id) (hs : List FileHandle) :
    ∀ st : PassSt Id,
      hs.foldl (processFile env cfg idFrom) st =
        hs.foldl (processFileFresh env cfg idFrom) st := by
  induction hs with
  | nil => exact fun st => rfl
  | cons hd tl ih =>
    intro st
    simp only [List.foldl_cons]
    rw [← processFile_eq_fresh]
    exact ih _

/-- One loop iteration preserves uniqueness of the index keys. -/
theorem processFile_keys_nodup {Id : Type} [DecidableEq Id] (env : Env)
    (cfg : Config) (idFrom : String → Id) (st : PassSt Id) (hd : FileHandle)
    (hn : st.library.keyList.Nodup) :
    (processFile env cfg idFrom st hd).library.keyList.Nodup := by
  rcases processFile_shape env cfg idFrom st hd with ⟨-, he⟩ |
    ⟨path, id, hp, hid, ⟨-, he⟩ | ⟨-, -, he⟩ | ⟨hc, -,
      ⟨-, -, he⟩ | ⟨-, he⟩ | ⟨-, he⟩⟩⟩
  · simpa [he] using hn
  · simpa [he] using hn
  · simpa [he] using hn
  · rw [he]
    simp only
    rw [AssetFolder.keyList_insert_of_not_contains _ _ _ hc]
    have hni : id ∉ st.library.keyList := by
      intro hmem
      rw [← AssetFolder.contains_iff] at hmem
      rw [hc] at hmem
      exact Bool.false_ne_true hmem
    simp [List.nodup_append, hn, hni]
  · simpa [he] using hn
  · simpa [he] using hn

/-- Whole-pass version of `processFile_keys_nodup`. -/
theorem foldl_keys_nodup {Id : Type} [DecidableEq Id] (env : Env)
    (cfg : Config) (idFrom : String → Id) (hs : List FileHandle) :
    ∀ st : PassSt Id, st.library.keyList.Nodup →
      ((hs.foldl (processFile env cfg idFrom) st)).library.keyList.Nodup := by
  induction hs with
  | nil => exact fun st hn => hn
  | cons hd tl ih =>
    intro st hn
    exact ih _ (processFile_keys_nodup env cfg idFrom st hd hn)

/-- C4: in every invocation, the loop only ever calls `Index.insert` for
an identifier that is not yet present (so the invocation computes the same
result when insertion is replaced by blind append), existing entries are
never replaced (the first-registered one wins and a later same-id file is
dropped without error), and key uniqueness of the index is preserved. -/
theorem insert_only_when_absent {Id : Type} [DecidableEq Id] (env : Env)
    (cfg : Config) (idFrom : String → Id) (fh : AssetFolderHandle)
    (lib : AssetFolder Id) :
    load_assets_from_folder env cfg idFrom fh lib =
      load_assets_from_folder_fresh env cfg idFrom fh lib ∧
    (∀ x ∈ lib.assets,
      x ∈ (load_assets_from_folder env cfg idFrom fh lib).2.assets) ∧
    (lib.keyList.Nodup →
      (load_assets_from_folder env cfg idFrom fh lib).2.keyList.Nodup) := by
  refine ⟨?_, ?_, ?_⟩
  · unfold load_assets_from_folder load_assets_from_folder_fresh
    by_cases h1 : fh.handle.isNone = true
    · simp [h1]
    · simp only [h1, if_false, Bool.false_eq_true]
      by_cases h2 : fh.loaded = true
      · simp [h2]
      · simp only [h2, if_false, Bool.false_eq_true]
        cases h3 : fh.handle with
        | none => rfl
        | some tok =>
          cases h4 : env.loaded_folders tok with
          | none => simp [h4]
          | some folder =>
            simp only [h4, runPass]
            rw [foldl_fresh_eq]
  · intro x hx
    unfold load_assets_from_folder
    split
    · exact hx
    · split
      · exact hx
      · split
        · exact hx
        · split
          · exact hx
          · simp only [runPass]
            split
            · exact foldl_entries_subset env cfg idFrom _
                ⟨fh.failed_paths, lib, 0, 0⟩ x hx
            · exact foldl_entries_subset env cfg idFrom _
                ⟨fh.failed_paths, lib, 0, 0⟩ x hx
  · intro hn
    unfold load_assets_from_folder
    split
    · exact hn
    · split
      · exact hn
      · split
        · exact hn
        · split
          · exact hn
          · simp only [runPass]
            split
            · exact foldl_keys_nodup env cfg idFrom _
                ⟨fh.failed_paths, lib, 0, 0⟩ hn
            · exact foldl_keys_nodup env cfg idFrom _
                ⟨fh.failed_paths, lib, 0, 0⟩ hn

/-- Witness for C4 at a concrete invocation on `folderMix` with the real
pass inserting one asset. -/
theorem insert_only_when_absent_witness :
    load_assets_from_folder envMix cfg0 (fun s => s)
        { handle := some 3, loaded := false, failed_paths := [] }
        AssetFolder.new =
      load_assets_from_folder_fresh envMix cfg0 (fun s => s)
        { handle := some 3, loaded := false, failed_paths := [] }
        AssetFolder.new ∧
    (load_assets_from_folder envMix cfg0 (fun s => s)
        { handle := some 3, loaded := false, failed_paths := [] }
        AssetFolder.new).2.keyList.Nodup := by
  obtain ⟨a, -, c⟩ := insert_only_when_absent envMix cfg0 (fun s => s)
    { handle := some 3, loaded := false, failed_paths := [] }
    AssetFolder.new
  exact ⟨a, c (by decide)⟩

/-! ## Claim C5: quarantined paths are never re-queried -/

/-- The state component of the traced iteration follows `processFile`
exactly. -/
theorem processFileTraced_fst {Id : Type} [DecidableEq Id] (env : Env)
    (cfg : Config) (idFrom : String → Id) (st : PassSt Id × List String)
    (hd : FileHandle) :
    (processFileTraced env cfg idFrom st hd).1 =
      processFile env cfg idFrom st.1 hd := by
  cases hp : hd.path? with
  | none =>
    unfold processFileTraced processFile
    rw [hp]
  | some path =>
    cases hid : id_from_filename_with_extension idFrom path cfg.file_extension with
    | none =>
      unfold processFileTraced processFile
      rw [hp]
      simp [hid]
    | some id =>
      unfold processFileTraced
      rw [hp]
      simp only [hid]
      cases hctn : st.1.library.contains id with
      | true =>
        unfold processFile
        rw [hp]
        simp [hid, hctn]
      | false =>
        by_cases hmem : pathToString path ∈ st.1.failed_paths
        · unfold processFile
          rw [hp]
          simp [hid, hctn, hmem]
        · simp [hctn, hmem]

/-- The trace component only grows, and only by paths that were not
quarantined at the time of the query. -/
theorem processFileTraced_snd {Id : Type} [DecidableEq Id] (env : Env)
    (cfg : Config) (idFrom : String → Id) (st : PassSt Id × List String)
    (hd : FileHandle) :
    ∃ r, (processFileTraced env cfg idFrom st hd).2 = st.2 ++ r ∧
      ∀ x ∈ r, x ∉ st.1.failed_paths := by
  cases hp : hd.path? with
  | none =>
    refine ⟨[], ?_, by simp⟩
    unfold processFileTraced
    rw [hp]
    simp
  | some path =>
    cases hid : id_from_filename_with_extension idFrom path cfg.file_extension with
    | none =>
      refine ⟨[], ?_, by simp⟩
      unfold processFileTraced
      rw [hp]
      simp [hid]
    | some id =>
      unfold processFileTraced
      rw [hp]
      simp only [hid]
      cases hctn : st.1.library.contains id with
      | true => exact ⟨[], by simp [hctn], by simp⟩
      | false =>
        by_cases hmem : pathToString path ∈ st.1.failed_paths
        · exact ⟨[], by simp [hctn, hmem], by simp⟩
        · refine ⟨[pathToString path], by simp [hctn, hmem], ?_⟩
          intro x hx
          rw [List.mem_singleton] at hx
          rw [hx]
          exact hmem

/-- Whole-pass version of `processFileTraced_fst`. -/
theorem foldl_traced_fst {Id : Type} [DecidableEq Id] (env : Env)
    (cfg : Config) (idFrom : String → Id) (hs : List FileHandle) :
    ∀ st : PassSt Id × List String,
      (hs.foldl (processFileTraced env cfg idFrom) st).1 =
        hs.foldl (processFile env cfg idFrom) st.1 := by
  induction hs with
  | nil => exact fun st => rfl
  | cons hd tl ih =>
    intro st
    simp only [List.foldl_cons]
    rw [ih _, processFileTraced_fst]

/-- Whole-pass version of `processFileTraced_snd`: every traced query
avoids the paths quarantined before the pass. -/
theorem foldl_traced_snd_avoids {Id : Type} [DecidableEq Id] (env : Env)
    (cfg : Config) (idFrom : String → Id) (hs : List FileHandle)
    (F : List String) :
    ∀ st : PassSt Id × List String,
      (∃ t, st.1.failed_paths = F ++ t) → (∀ x ∈ st.2, x ∉ F) →
      ∀ x ∈ (hs.foldl (processFileTraced env cfg idFrom) st).2, x ∉ F := by
  induction hs with
  | nil => exact fun st _ hq => hq
  | cons hd tl ih =>
    intro st hf hq
    obtain ⟨t, ht⟩ := hf
    obtain ⟨r, hr, hrF⟩ := processFileTraced_snd env cfg idFrom st hd
    simp only [List.foldl_cons]
    refine ih _ ?_ ?_
    · obtain ⟨u, hu⟩ := processFile_failed_ext env cfg idFrom st.1 hd
      rw [processFileTraced_fst, hu, ht]
      exact ⟨t ++ u, by simp⟩
    · intro x hx
      rw [hr] at hx
      rcases List.mem_append.1 hx with hx1 | hx2
      · exact hq x hx1
      · intro hxF
        exact hrF x hx2 (by rw [ht]; exact List.mem_append_left _ hxF)

/-- C5: in every invocation of the reconciliation loop, a discovered file
whose path is already in `failed_paths` never has its load state queried
from the external loader (the quarantine check precedes the query), and
the traced pass used to express this computes exactly the real pass. -/
theorem quarantined_paths_never_requeried {Id : Type} [DecidableEq Id]
    (env : Env) (cfg : Config) (idFrom : String → Id)
    (fh : AssetFolderHandle) (lib : AssetFolder Id) :
    (∀ q ∈ invocationQueries env cfg idFrom fh lib,
      q ∉ fh.failed_paths) ∧
    (∀ folder : Folder,
      (folder.handles.foldl (processFileTraced env cfg idFrom)
        ({ failed_paths := fh.failed_paths, library := lib,
           pending_assets := 0, loaded_count := 0 }, [])).1 =
        runPass env cfg idFrom folder fh lib) := by
  constructor
  · intro q hq
    unfold invocationQueries at hq
    split at hq
    · simp at hq
    · split at hq
      · simp at hq
      · split at hq
        · simp at hq
        · split at hq
          · simp at hq
          · exact foldl_traced_snd_avoids env cfg idFrom _ fh.failed_paths
              (⟨fh.failed_paths, lib, 0, 0⟩, []) ⟨[], by simp⟩
              (by simp) q hq
  · intro folder
    rw [foldl_traced_fst, runPass]

/-- Witness for C5: with `b.spell.ron` already quarantined, a concrete
invocation queries only `a.spell.ron`, which is not in the quarantine
list. -/
theorem quarantined_paths_never_requeried_witness :
    "a.spell.ron" ∈ invocationQueries envMix cfg0 (fun s => s)
      { handle := some 3, loaded := false, failed_paths := ["b.spell.ron"] }
      AssetFolder.new ∧
    "a.spell.ron" ∉
      ({ handle := some 3, loaded := false,
         failed_paths := ["b.spell.ron"] } : AssetFolderHandle).failed_paths :=
  ⟨by decide,
   (quarantined_paths_never_requeried envMix cfg0 (fun s => s)
      { handle := some 3, loaded := false, failed_paths := ["b.spell.ron"] }
      AssetFolder.new).1 "a.spell.ron" (by decide)⟩

/-! ## Claim C6: terminal flag set iff nothing is pending -/

/-- C6: in an invocation where the discovery token is present, the
terminal flag is false, and the member-file list is available, the
terminal flag becomes true iff zero files of the pass are classified as
pending; in particular an empty member list reaches terminal on that
pass. -/
theorem terminal_iff_no_pending {Id : Type} [DecidableEq Id] (env : Env)
    (cfg : Config) (idFrom : String → Id) (fh : AssetFolderHandle)
    (lib : AssetFolder Id) (tok : Nat) (folder : Folder)
    (hh : fh.handle = some tok) (hl : fh.loaded = false)
    (hf : env.loaded_folders tok = some folder) :
    ((load_assets_from_folder env cfg idFrom fh lib).1.loaded = true ↔
      (runPass env cfg idFrom folder fh lib).pending_assets = 0) ∧
    (folder.handles = [] →
      (load_assets_from_folder env cfg idFrom fh lib).1.loaded = true) := by
  have h1 : fh.handle.isNone = false := by rw [hh]; rfl
  unfold load_assets_from_folder
  rw [hh]
  simp only [h1, hl, hf, Option.isNone_some, Bool.false_eq_true, if_false]
  by_cases hp0 : (runPass env cfg idFrom folder fh lib).pending_assets = 0
  · simp [hp0]
  · constructor
    · simp [hp0, hl]
    · intro hemp
      exfalso
      apply hp0
      rw [runPass, hemp]
      rfl

/-- Witness for C6: a concrete invocation on `folderMix` (all files
decided) sets the terminal flag. -/
theorem terminal_iff_no_pending_witness :
    (load_assets_from_folder envMix cfg0 (fun s => s)
      { handle := some 3, loaded := false, failed_paths := [] }
      AssetFolder.new).1.loaded = true :=
  (terminal_iff_no_pending envMix cfg0 (fun s => s)
    { handle := some 3, loaded := false, failed_paths := [] }
    AssetFolder.new 3 folderMix rfl rfl rfl).1.mpr (by decide)

/-! ## Claim C9: only files with valid identifiers are quarantined -/

/-- Whole-pass provenance of quarantined paths: every path in the
quarantine list after a pass was there before or is the path string of a
member file from which an identifier was derived. -/
theorem foldl_failed_sources {Id : Type} [DecidableEq Id] (env : Env)
    (cfg : Config) (idFrom : String → Id) (hs : List FileHandle) :
    ∀ st : PassSt Id,
      ∀ p ∈ (hs.foldl (processFile env cfg idFrom) st).failed_paths,
        p ∈ st.failed_paths ∨
        ∃ hd ∈ hs, ∃ path, hd.path? = some path ∧ pathToString path = p ∧
          (id_from_filename_with_extension idFrom path
            cfg.file_extension).isSome = true := by
  induction hs with
  | nil => exact fun st p hp => Or.inl hp
  | cons hd tl ih =>
    intro st p hp
    simp only [List.foldl_cons] at hp
    rcases ih _ p hp with hmem | ⟨hd2, hhd2, path, hpa, hps, hsome⟩
    · rcases processFile_shape env cfg idFrom st hd with ⟨-, he⟩ |
        ⟨path, id, hpa, hid, ⟨-, he⟩ | ⟨-, -, he⟩ | ⟨-, -,
          ⟨-, -, he⟩ | ⟨-, he⟩ | ⟨-, he⟩⟩⟩
      · rw [he] at hmem
        exact Or.inl hmem
      · rw [he] at hmem
        exact Or.inl hmem
      · rw [he] at hmem
        exact Or.inl hmem
      · rw [he] at hmem
        exact Or.inl hmem
      · rw [he] at hmem
        simp only at hmem
        rcases List.mem_append.1 hmem with hm | hm
        · exact Or.inl hm
        · refine Or.inr ⟨hd, List.mem_cons_self _ _, path, hpa, ?_, ?_⟩
          · rw [List.mem_singleton] at hm
            rw [hm]
          · rw [hid]
            rfl
      · rw [he] at hmem
        exact Or.inl hmem
    · exact Or.inr ⟨hd2, List.mem_cons_of_mem _ hhd2, path, hpa, hps, hsome⟩

/-- C9: every path the loop appends to `failed_paths` is the path string
of a discovered member file from which a valid identifier was derived
(filename ends with the suffix, stem non-empty, no leading `.` or `_`);
hidden, disabled, or suffix-mismatched files are skipped before the
load-state query and are never quarantined. -/
theorem quarantine_only_valid_ids {Id : Type} [DecidableEq Id] (env : Env)
    (cfg : Config) (idFrom : String → Id) (fh : AssetFolderHandle)
    (lib : AssetFolder Id) (p : String)
    (hp : p ∈ (load_assets_from_folder env cfg idFrom fh lib).1.failed_paths) :
    p ∈ fh.failed_paths ∨
    ∃ tok folder, fh.handle = some tok ∧
      env.loaded_folders tok = some folder ∧
      ∃ hd ∈ folder.handles, ∃ path, hd.path? = some path ∧
        pathToString path = p ∧
        (id_from_filename_with_extension idFrom path
          cfg.file_extension).isSome = true := by
  unfold load_assets_from_folder at hp
  split at hp
  · exact Or.inl hp
  · split at hp
    · exact Or.inl hp
    · split at hp
      · exact Or.inl hp
      · rename_i tok heq
        split at hp
        · exact Or.inl hp
        · rename_i folder heq2
          simp only [runPass] at hp
          split at hp
          · rcases foldl_failed_sources env cfg idFrom folder.handles
              ⟨fh.failed_paths, lib, 0, 0⟩ p hp with hm | ⟨hd, hhd, path, h5, h6, h7⟩
            · exact Or.inl hm
            · exact Or.inr ⟨tok, folder, heq, heq2,
                hd, hhd, path, h5, h6, h7⟩
          · rcases foldl_failed_sources env cfg idFrom folder.handles
              ⟨fh.failed_paths, lib, 0, 0⟩ p hp with hm | ⟨hd, hhd, path, h5, h6, h7⟩
            · exact Or.inl hm
            · exact Or.inr ⟨tok, folder, heq, heq2,
                hd, hhd, path, h5, h6, h7⟩

/-- Witness for C9: the concrete invocation on `folderMix` quarantines
`b.spell.ron`, and the theorem traces it back to an eligible member
file. -/
theorem quarantine_only_valid_ids_witness :
    "b.spell.ron" ∈ (load_assets_from_folder envMix cfg0 (fun s => s)
      { handle := some 3, loaded := false, failed_paths := [] }
      AssetFolder.new).1.failed_paths ∧
    ("b.spell.ron" ∈
        ({ handle := some 3, loaded := false,
           failed_paths := [] } : AssetFolderHandle).failed_paths ∨
      ∃ tok folder,
        ({ handle := some 3, loaded := false,
           failed_paths := [] } : AssetFolderHandle).handle = some tok ∧
        envMix.loaded_folders tok = some folder ∧
        ∃ hd ∈ folder.handles, ∃ path, hd.path? = some path ∧
          pathToString path = "b.spell.ron" ∧
          (id_from_filename_with_extension (fun s => s) path
            cfg0.file_extension).isSome = true) :=
  ⟨by decide,
   quarantine_only_valid_ids envMix cfg0 (fun s => s)
     { handle := some 3, loaded := false, failed_paths := [] }
     AssetFolder.new "b.spell.ron" (by decide)⟩

/-! ## Claim C7: convergence -/

/-- A stabilized external world is consistent with itself. -/
theorem consistentWith_self (E : Env) (h : FileHandle) :
    consistentWith E E h := by
  refine ⟨fun hf => ?_, fun hl hd => ?_⟩
  · unfold finalFailed
    simp [hf]
  · unfold finalLoaded
    simp [hl, hd]

/-- No handle both eventually loads and eventually fails. -/
theorem not_finalLoaded_and_failed (E : Env) (h : FileHandle)
    (h1 : finalLoaded E h = true) (h2 : finalFailed E h = true) : False := by
  unfold finalLoaded at h1
  unfold finalFailed at h2
  rw [Bool.and_eq_true, decide_eq_true_eq] at h1
  rw [decide_eq_true_eq] at h2
  rw [h1.1] at h2
  simp at h2

/-- `eligId` in terms of the handle's path. -/
theorem eligId_of_path {Id : Type} (idFrom : String → Id) (cfg : Config)
    (hd : FileHandle) (path : RPath) (hp : hd.path? = some path) :
    eligId idFrom cfg hd =
      id_from_filename_with_extension idFrom path cfg.file_extension := by
  unfold eligId
  rw [hp]

/-- `handlePathStr` in terms of the handle's path. -/
theorem handlePathStr_of_path (hd : FileHandle) (path : RPath)
    (hp : hd.path? = some path) : handlePathStr hd = pathToString path := by
  unfold handlePathStr
  rw [hp]

/-- Key membership persists through a pass. -/
theorem foldl_keys_subset {Id : Type} [DecidableEq Id] (env : Env)
    (cfg : Config) (idFrom : String → Id) (hs : List FileHandle)
    (st : PassSt Id) (i : Id) (hi : i ∈ st.library.keyList) :
    i ∈ ((hs.foldl (processFile env cfg idFrom) st)).library.keyList := by
  unfold AssetFolder.keyList at hi ⊢
  rcases List.mem_map.1 hi with ⟨x, hx, hxi⟩
  exact List.mem_map.2 ⟨x, foldl_entries_subset env cfg idFrom hs st x hx, hxi⟩

/-- Quarantine membership persists through a pass. -/
theorem foldl_failed_mem {Id : Type} [DecidableEq Id] (env : Env)
    (cfg : Config) (idFrom : String → Id) (hs : List FileHandle)
    (st : PassSt Id) (p : String) (hp : p ∈ st.failed_paths) :
    p ∈ ((hs.foldl (processFile env cfg idFrom) st)).failed_paths := by
  obtain ⟨t, ht⟩ := foldl_failed_ext env cfg idFrom hs st
  rw [ht]
  exact List.mem_append_left _ hp

/-- One loop iteration preserves duplicate-freedom of the quarantine
list. -/
theorem processFile_failed_nodup {Id : Type} [DecidableEq Id] (env : Env)
    (cfg : Config) (idFrom : String → Id) (st : PassSt Id) (hd : FileHandle)
    (hn : st.failed_paths.Nodup) :
    (processFile env cfg idFrom st hd).failed_paths.Nodup := by
  rcases processFile_shape env cfg idFrom st hd with ⟨-, he⟩ |
    ⟨path, id, hp, hid, ⟨-, he⟩ | ⟨-, -, he⟩ | ⟨-, hmem,
      ⟨-, -, he⟩ | ⟨-, he⟩ | ⟨-, he⟩⟩⟩
  · simpa [he] using hn
  · simpa [he] using hn
  · simpa [he] using hn
  · simpa [he] using hn
  · rw [he]
    simp only
    simp [List.nodup_append, hn, hmem]
  · simpa [he] using hn

/-- Length of `filterMap` over a list on which the function is total. -/
theorem length_filterMap_of_isSome {α β : Type} (f : α → Option β) :
    ∀ l : List α, (∀ x ∈ l, (f x).isSome = true) →
      (l.filterMap f).length = l.length := by
  intro l
  induction l with
  | nil => intro _; rfl
  | cons a l ih =>
    intro hl
    obtain ⟨b, hb⟩ := Option.isSome_iff_exists.1 (hl a (List.mem_cons_self a l))
    rw [List.filterMap_cons, hb]
    simp only [List.length_cons]
    rw [ih (fun x hx => hl x (List.mem_cons_of_mem a hx))]

/-- `filterMap` preserves duplicate-freedom when the function is injective
on list members. -/
theorem nodup_filterMap_of_inj {α β : Type} (f : α → Option β)
    (l : List α) (hn : l.Nodup)
    (hinj : ∀ x ∈ l, ∀ y ∈ l, ∀ b : β, f x = some b → f y = some b → x = y) :
    (l.filterMap f).Nodup := by
  induction l with
  | nil => exact List.nodup_nil
  | cons a l ih =>
    rw [List.filterMap_cons]
    have hn2 := (List.nodup_cons.1 hn).2
    have hna := (List.nodup_cons.1 hn).1
    cases hb : f a with
    | none =>
      exact ih hn2 (fun x hx y hy b h1 h2 =>
        hinj x (List.mem_cons_of_mem a hx) y (List.mem_cons_of_mem a hy) b h1 h2)
    | some b =>
      rw [List.nodup_cons]
      refine ⟨?_, ih hn2 (fun x hx y hy c h1 h2 =>
        hinj x (List.mem_cons_of_mem a hx) y (List.mem_cons_of_mem a hy) c h1 h2)⟩
      intro hmem
      rcases List.mem_filterMap.1 hmem with ⟨x, hx, hxb⟩
      have : a = x := hinj a (List.mem_cons_self a l) x
        (List.mem_cons_of_mem a hx) b hb hxb
      rw [this] at hna
      exact hna hx

/-- Splitting a list's length by a predicate. -/
theorem length_filter_add_length_not {α : Type} (p : α → Bool) :
    ∀ l : List α,
      (l.filter p).length + (l.filter (fun a => !(p a))).length = l.length := by
  intro l
  induction l with
  | nil => rfl
  | cons a l ih =>
    cases hp : p a <;> simp [List.filter_cons, hp, ← ih] <;> omega

/-- The index length is the number of keys. -/
theorem AssetFolder.len_eq_keyList_length {Id : Type} (l : AssetFolder Id) :
    l.len = l.keyList.length := by
  unfold AssetFolder.len AssetFolder.keyList
  simp

/-- One iteration preserves soundness of index entries for the eventual
verdicts, provided the polled world never contradicts them. -/
theorem processFile_entries_sound {Id : Type} [DecidableEq Id] (e E : Env)
    (cfg : Config) (idFrom : String → Id) (folder : Folder)
    (st : PassSt Id) (hd : FileHandle) (hc : consistentWith e E hd)
    (hdF : hd ∈ folder.handles)
    (ha : ∀ x ∈ st.library.assets, GoodEntry idFrom cfg E folder x) :
    ∀ x ∈ (processFile e cfg idFrom st hd).library.assets,
      GoodEntry idFrom cfg E folder x := by
  rcases processFile_shape e cfg idFrom st hd with ⟨-, he⟩ |
    ⟨path, id, hp, hid, ⟨-, he⟩ | ⟨-, -, he⟩ | ⟨hctn, -,
      ⟨hls, hdata, he⟩ | ⟨-, he⟩ | ⟨-, he⟩⟩⟩
  · intro x hx; rw [he] at hx; exact ha x hx
  · intro x hx; rw [he] at hx; exact ha x hx
  · intro x hx; rw [he] at hx; exact ha x hx
  · intro x hx
    rw [he] at hx
    simp only at hx
    rw [AssetFolder.insert_of_not_contains _ _ _ hctn] at hx
    rcases List.mem_append.1 hx with hx1 | hx2
    · exact ha x hx1
    · rw [List.mem_singleton] at hx2
      rw [hx2]
      refine ⟨hdF, ?_, hc.2 hls hdata⟩
      rw [eligId_of_path idFrom cfg hd path hp]
      exact hid
  · intro x hx; rw [he] at hx; exact ha x hx
  · intro x hx; rw [he] at hx; exact ha x hx

/-- One iteration preserves soundness of the quarantine list for the
eventual verdicts, provided the polled world never contradicts them. -/
theorem processFile_failed_sound {Id : Type} [DecidableEq Id] (e E : Env)
    (cfg : Config) (idFrom : String → Id) (folder : Folder)
    (st : PassSt Id) (hd : FileHandle) (hc : consistentWith e E hd)
    (hdF : hd ∈ folder.handles)
    (hb : ∀ p ∈ st.failed_paths, GoodFailedPath idFrom cfg E folder p) :
    ∀ p ∈ (processFile e cfg idFrom st hd).failed_paths,
      GoodFailedPath idFrom cfg E folder p := by
  rcases processFile_shape e cfg idFrom st hd with ⟨-, he⟩ |
    ⟨path, id, hp, hid, ⟨-, he⟩ | ⟨-, -, he⟩ | ⟨-, -,
      ⟨-, -, he⟩ | ⟨hls, he⟩ | ⟨-, he⟩⟩⟩
  · intro p hp2; rw [he] at hp2; exact hb p hp2
  · intro p hp2; rw [he] at hp2; exact hb p hp2
  · intro p hp2; rw [he] at hp2; exact hb p hp2
  · intro p hp2; rw [he] at hp2; exact hb p hp2
  · intro p hp2
    rw [he] at hp2
    simp only at hp2
    rcases List.mem_append.1 hp2 with hp3 | hp3
    · exact hb p hp3
    · rw [List.mem_singleton] at hp3
      rw [hp3]
      refine ⟨hd, hdF, ?_, hc.1 hls, handlePathStr_of_path hd path hp⟩
      rw [eligId_of_path idFrom cfg hd path hp, hid]
      rfl
  · intro p hp2; rw [he] at hp2; exact hb p hp2

/-- If an iteration classified its file as not pending, the file is
accounted for in the resulting state according to its eventual verdict. -/
theorem processFile_step_coverage {Id : Type} [DecidableEq Id] (e E : Env)
    (cfg : Config) (idFrom : String → Id) (folder : Folder)
    (st : PassSt Id) (hd : FileHandle) (hc : consistentWith e E hd)
    (hdF : hd ∈ folder.handles)
    (hids : ∀ h1 ∈ folder.handles, ∀ h2 ∈ folder.handles, ∀ i : Id,
      eligId idFrom cfg h1 = some i → eligId idFrom cfg h2 = some i →
      h1 = h2)
    (hpaths : ∀ h1 ∈ folder.handles, ∀ h2 ∈ folder.handles,
      (eligId idFrom cfg h1).isSome = true →
      (eligId idFrom cfg h2).isSome = true →
      handlePathStr h1 = handlePathStr h2 → h1 = h2)
    (ha : ∀ x ∈ st.library.assets, GoodEntry idFrom cfg E folder x)
    (hb : ∀ p ∈ st.failed_paths, GoodFailedPath idFrom cfg E folder p)
    (hpend : (processFile e cfg idFrom st hd).pending_assets =
      st.pending_assets)
    (i : Id) (hi : eligId idFrom cfg hd = some i) :
    (finalLoaded E hd = true →
      i ∈ (processFile e cfg idFrom st hd).library.keyList) ∧
    (finalFailed E hd = true →
      handlePathStr hd ∈ (processFile e cfg idFrom st hd).failed_paths) := by
  rcases processFile_shape e cfg idFrom st hd with ⟨hnone, he⟩ |
    ⟨path, id, hp, hid, ⟨hctn, he⟩ | ⟨hctn, hmem, he⟩ | ⟨hctn, hmem,
      ⟨hls, hdata, he⟩ | ⟨hls, he⟩ | ⟨hcond, he⟩⟩⟩
  · rw [hnone] at hi
    exact absurd hi (Option.noConfusion)
  · -- already registered
    have hii : i = id := by
      rw [eligId_of_path idFrom cfg hd path hp, hid] at hi
      exact (Option.some.inj hi).symm
    have hkey : id ∈ st.library.keyList := (AssetFolder.contains_iff _ _).1 hctn
    constructor
    · intro _
      rw [he, hii]
      exact hkey
    · intro hFF
      exfalso
      rcases List.mem_map.1 hkey with ⟨x, hx, hx1⟩
      obtain ⟨hxF, hxe, hxl⟩ := ha x hx
      have hxid : eligId idFrom cfg x.2 = some id := by rw [hxe, hx1]
      have hdid : eligId idFrom cfg hd = some id := by
        rw [eligId_of_path idFrom cfg hd path hp]; exact hid
      have hxhd : x.2 = hd := hids x.2 hxF hd hdF id hxid hdid
      rw [hxhd] at hxl
      exact not_finalLoaded_and_failed E hd hxl hFF
  · -- already quarantined
    obtain ⟨h2, h2F, h2e, h2f, h2p⟩ := hb (pathToString path) hmem
    have hdid : eligId idFrom cfg hd = some id := by
      rw [eligId_of_path idFrom cfg hd path hp]; exact hid
    have hdsome : (eligId idFrom cfg hd).isSome = true := by
      rw [hdid]; rfl
    have hpp : handlePathStr h2 = handlePathStr hd := by
      rw [h2p, handlePathStr_of_path hd path hp]
    have h2hd : h2 = hd := hpaths h2 h2F hd hdF h2e hdsome hpp
    rw [h2hd] at h2f
    constructor
    · intro hFL
      exact absurd h2f (by intro h2f2; exact not_finalLoaded_and_failed E hd hFL h2f2)
    · intro _
      rw [he, handlePathStr_of_path hd path hp]
      exact hmem
  · -- registered now
    have hFL : finalLoaded E hd = true := hc.2 hls hdata
    have hii : i = id := by
      rw [eligId_of_path idFrom cfg hd path hp, hid] at hi
      exact (Option.some.inj hi).symm
    constructor
    · intro _
      rw [he, hii]
      simp only
      rw [AssetFolder.keyList_insert_of_not_contains _ _ _ hctn]
      exact List.mem_append_right _ (List.mem_singleton.2 rfl)
    · intro hFF
      exact absurd hFF (by intro hFF2; exact not_finalLoaded_and_failed E hd hFL hFF2)
  · -- quarantined now
    have hFF : finalFailed E hd = true := hc.1 hls
    constructor
    · intro hFL
      exact absurd hFF (by intro hFF2; exact not_finalLoaded_and_failed E hd hFL hFF2)
    · intro _
      rw [he, handlePathStr_of_path hd path hp]
      simp only
      exact List.mem_append_right _ (List.mem_singleton.2 rfl)
  · -- pending: contradicts the premise
    exfalso
    rw [he] at hpend
    simp only at hpend
    exact Nat.succ_ne_self _ hpend

/-- Main whole-pass invariant: soundness and uniqueness of index entries
and quarantined paths are preserved, and when the pass classified nothing
as pending every processed member file is accounted for according to its
eventual verdict. -/
theorem foldl_reconcile_invariant {Id : Type} [DecidableEq Id] (e E : Env)
    (cfg : Config) (idFrom : String → Id) (folder : Folder)
    (hcons : ∀ h ∈ folder.handles, consistentWith e E h)
    (hids : ∀ h1 ∈ folder.handles, ∀ h2 ∈ folder.handles, ∀ i : Id,
      eligId idFrom cfg h1 = some i → eligId idFrom cfg h2 = some i →
      h1 = h2)
    (hpaths : ∀ h1 ∈ folder.handles, ∀ h2 ∈ folder.handles,
      (eligId idFrom cfg h1).isSome = true →
      (eligId idFrom cfg h2).isSome = true →
      handlePathStr h1 = handlePathStr h2 → h1 = h2) :
    ∀ hs : List FileHandle, (∀ h ∈ hs, h ∈ folder.handles) →
    ∀ st : PassSt Id,
      (∀ x ∈ st.library.assets, GoodEntry idFrom cfg E folder x) →
      (∀ p ∈ st.failed_paths, GoodFailedPath idFrom cfg E folder p) →
      st.library.keyList.Nodup → st.failed_paths.Nodup →
      (∀ x ∈ (hs.foldl (processFile e cfg idFrom) st).library.assets,
          GoodEntry idFrom cfg E folder x) ∧
      (∀ p ∈ (hs.foldl (processFile e cfg idFrom) st).failed_paths,
          GoodFailedPath idFrom cfg E folder p) ∧
      (hs.foldl (processFile e cfg idFrom) st).library.keyList.Nodup ∧
      (hs.foldl (processFile e cfg idFrom) st).failed_paths.Nodup ∧
      ((hs.foldl (processFile e cfg idFrom) st).pending_assets =
          st.pending_assets →
        ∀ hd ∈ hs, ∀ i : Id, eligId idFrom cfg hd = some i →
          (finalLoaded E hd = true →
            i ∈ (hs.foldl (processFile e cfg idFrom) st).library.keyList) ∧
          (finalFailed E hd = true →
            handlePathStr hd ∈
              (hs.foldl (processFile e cfg idFrom) st).failed_paths)) := by
  intro hs
  induction hs with
  | nil =>
    intro hsub st ha hb hn1 hn2
    exact ⟨ha, hb, hn1, hn2, fun _ hd hmem => absurd hmem (List.not_mem_nil hd)⟩
  | cons hd tl ih =>
    intro hsub st ha hb hn1 hn2
    have hdF : hd ∈ folder.handles := hsub hd (List.mem_cons_self hd tl)
    have hc : consistentWith e E hd := hcons hd hdF
    have hsubtl : ∀ h ∈ tl, h ∈ folder.handles :=
      fun h hm => hsub h (List.mem_cons_of_mem hd hm)
    have ha1 := processFile_entries_sound e E cfg idFrom folder st hd hc hdF ha
    have hb1 := processFile_failed_sound e E cfg idFrom folder st hd hc hdF hb
    have hn11 := processFile_keys_nodup e cfg idFrom st hd hn1
    have hn21 := processFile_failed_nodup e cfg idFrom st hd hn2
    obtain ⟨Ha, Hb, Hn1, Hn2, Hcov⟩ :=
      ih hsubtl (processFile e cfg idFrom st hd) ha1 hb1 hn11 hn21
    simp only [List.foldl_cons]
    refine ⟨Ha, Hb, Hn1, Hn2, ?_⟩
    intro hP hd2 hmem2 i hi
    have hm1 : st.pending_assets ≤
        (processFile e cfg idFrom st hd).pending_assets :=
      processFile_pending_mono e cfg idFrom st hd
    have hm2 : (processFile e cfg idFrom st hd).pending_assets ≤
        (tl.foldl (processFile e cfg idFrom)
          (processFile e cfg idFrom st hd)).pending_assets :=
      foldl_pending_mono e cfg idFrom tl (processFile e cfg idFrom st hd)
    have hstep : (processFile e cfg idFrom st hd).pending_assets =
        st.pending_assets := by omega
    rcases List.mem_cons.1 hmem2 with hEq | hmemtl
    · rw [hEq]
      obtain ⟨cl, cf⟩ := processFile_step_coverage e E cfg idFrom folder st
        hd hc hdF hids hpaths ha hb hstep i (hEq ▸ hi)
      constructor
      · intro hFL
        exact foldl_keys_subset e cfg idFrom tl _ i (cl hFL)
      · intro hFF
        exact foldl_failed_mem e cfg idFrom tl _ _ (cf hFF)
    · exact Hcov (by omega) hd2 hmemtl i hi

/-- A pass over files that all have eventual verdicts, polled against the
stabilized world itself, classifies nothing as pending. -/
theorem foldl_pending_stable {Id : Type} [DecidableEq Id] (E : Env)
    (cfg : Config) (idFrom : String → Id) :
    ∀ hs : List FileHandle,
      (∀ hd ∈ hs, ∀ i : Id, eligId idFrom cfg hd = some i →
        finalLoaded E hd = true ∨ finalFailed E hd = true) →
      ∀ st : PassSt Id,
        (hs.foldl (processFile E cfg idFrom) st).pending_assets =
          st.pending_assets := by
  intro hs
  induction hs with
  | nil => exact fun _ st => rfl
  | cons hd tl ih =>
    intro hdec st
    have hdectl : ∀ hd2 ∈ tl, ∀ i : Id, eligId idFrom cfg hd2 = some i →
        finalLoaded E hd2 = true ∨ finalFailed E hd2 = true :=
      fun hd2 hm => hdec hd2 (List.mem_cons_of_mem hd hm)
    simp only [List.foldl_cons]
    rw [ih hdectl]
    rcases processFile_shape E cfg idFrom st hd with ⟨-, he⟩ |
      ⟨path, id, hp, hid, ⟨-, he⟩ | ⟨-, -, he⟩ | ⟨-, -,
        ⟨-, -, he⟩ | ⟨-, he⟩ | ⟨hcond, he⟩⟩⟩
    · rw [he]
    · rw [he]
    · rw [he]
    · rw [he]
    · rw [he]
    · exfalso
      have hdid : eligId idFrom cfg hd = some id := by
        rw [eligId_of_path idFrom cfg hd path hp]; exact hid
      rcases hdec hd (List.mem_cons_self hd tl) id hdid with hFL | hFF
      · unfold finalLoaded at hFL
        rw [Bool.and_eq_true, decide_eq_true_eq] at hFL
        rcases hcond with h | h | h | ⟨h, hdata⟩
        · rw [hFL.1] at h; exact LoadState.noConfusion (Option.some.inj h)
        · rw [hFL.1] at h; exact Option.noConfusion h
        · rw [hFL.1] at h; exact LoadState.noConfusion (Option.some.inj h)
        · rw [hFL.2] at hdata; exact Bool.noConfusion hdata
      · unfold finalFailed at hFF
        rw [decide_eq_true_eq] at hFF
        rcases hcond with h | h | h | ⟨h, -⟩ <;> rw [hFF] at h
        · exact LoadState.noConfusion (Option.some.inj h)
        · exact Option.noConfusion h
        · exact LoadState.noConfusion (Option.some.inj h)
        · exact LoadState.noConfusion (Option.some.inj h)

/-- A non-terminal invocation with an available member list and nothing
pending sets the terminal flag. -/
theorem pass_sets_terminal {Id : Type} [DecidableEq Id] (e : Env)
    (cfg : Config) (idFrom : String → Id) (fh : AssetFolderHandle)
    (lib : AssetFolder Id) (tok : Nat) (folder : Folder)
    (hh : fh.handle = some tok) (hl : fh.loaded = false)
    (hf : e.loaded_folders tok = some folder)
    (hp0 : (runPass e cfg idFrom folder fh lib).pending_assets = 0) :
    (load_assets_from_folder e cfg idFrom fh lib).1.loaded = true := by
  unfold load_assets_from_folder
  rw [hh]
  simp only [Option.isNone_some, Bool.false_eq_true, if_false, hl, hf]
  simp [hp0]

/-- One invocation preserves the reconciliation invariant, whatever the
polled world answers, as long as it is consistent with the eventual
verdicts and reports the same member list (or none). -/
theorem pass_preserves_inv {Id : Type} [DecidableEq Id] (e E : Env)
    (cfg : Config) (idFrom : String → Id) (folder : Folder) (tok : Nat)
    (hcons : ∀ h ∈ folder.handles, consistentWith e E h)
    (hids : ∀ h1 ∈ folder.handles, ∀ h2 ∈ folder.handles, ∀ i : Id,
      eligId idFrom cfg h1 = some i → eligId idFrom cfg h2 = some i →
      h1 = h2)
    (hpaths : ∀ h1 ∈ folder.handles, ∀ h2 ∈ folder.handles,
      (eligId idFrom cfg h1).isSome = true →
      (eligId idFrom cfg h2).isSome = true →
      handlePathStr h1 = handlePathStr h2 → h1 = h2)
    (hfe : e.loaded_folders tok = none ∨ e.loaded_folders tok = some folder)
    (st : AssetFolderHandle × AssetFolder Id)
    (hinv : LoopInv idFrom cfg E folder tok st) :
    LoopInv idFrom cfg E folder tok
      (load_assets_from_folder e cfg idFrom st.1 st.2) := by
  obtain ⟨hh, ha, hb, hn1, hn2, hcomp⟩ := hinv
  have hhs : st.1.handle.isSome = true := by rw [hh]; rfl
  by_cases hl : st.1.loaded = true
  · rw [pass_terminal_id e cfg idFrom st.1 st.2 hl hhs]
    exact ⟨hh, ha, hb, hn1, hn2, hcomp⟩
  · have hl2 : st.1.loaded = false := by
      cases hx : st.1.loaded with
      | false => rfl
      | true => exact absurd hx hl
    unfold load_assets_from_folder
    rw [hh]
    simp only [Option.isNone_some, Bool.false_eq_true, if_false, hl2]
    rcases hfe with hfe | hfe
    · rw [hfe]
      exact ⟨hh, ha, hb, hn1, hn2, hcomp⟩
    · rw [hfe]
      simp only [runPass]
      obtain ⟨Ha, Hb, Hn1, Hn2, Hcov⟩ := foldl_reconcile_invariant e E cfg
        idFrom folder hcons hids hpaths folder.handles (fun h hm => hm)
        ⟨st.1.failed_paths, st.2, 0, 0⟩ ha hb hn1 hn2
      split
      · rename_i hp0
        exact ⟨rfl, Ha, Hb, Hn1, Hn2, fun _ => Hcov hp0⟩
      · exact ⟨rfl, Ha, Hb, Hn1, Hn2, fun hx => Bool.noConfusion hx⟩

/-- The reconciliation invariant holds after every positive number of
invocations starting from the fresh state. -/
theorem runUpTo_invariant {Id : Type} [DecidableEq Id] (envs : Nat → Env)
    (E : Env) (cfg : Config) (idFrom : String → Id) (folder : Folder)
    (hfold : ∀ t,
      (envs t).loaded_folders ((envs 0).load_folder cfg.folder_path) =
        none ∨
      (envs t).loaded_folders ((envs 0).load_folder cfg.folder_path) =
        some folder)
    (hcons : ∀ t, ∀ h ∈ folder.handles, consistentWith (envs t) E h)
    (hids : ∀ h1 ∈ folder.handles, ∀ h2 ∈ folder.handles, ∀ i : Id,
      eligId idFrom cfg h1 = some i → eligId idFrom cfg h2 = some i →
      h1 = h2)
    (hpaths : ∀ h1 ∈ folder.handles, ∀ h2 ∈ folder.handles,
      (eligId idFrom cfg h1).isSome = true →
      (eligId idFrom cfg h2).isSome = true →
      handlePathStr h1 = handlePathStr h2 → h1 = h2) :
    ∀ n, LoopInv idFrom cfg E folder
      ((envs 0).load_folder cfg.folder_path)
      (runUpTo envs cfg idFrom (AssetFolderHandle.new, AssetFolder.new)
        (n + 1)) := by
  intro n
  induction n with
  | zero =>
    have h1 : runUpTo envs cfg idFrom
        (AssetFolderHandle.new, AssetFolder.new) 1 =
        ({ handle := some ((envs 0).load_folder cfg.folder_path),
           loaded := false, failed_paths := [] }, AssetFolder.new) := rfl
    rw [h1]
    refine ⟨rfl, ?_, ?_, ?_, ?_, ?_⟩
    · intro x hx
      exact absurd hx (List.not_mem_nil x)
    · intro p hp
      exact absurd hp (List.not_mem_nil p)
    · simp [AssetFolder.new, AssetFolder.keyList]
    · simp
    · intro hx
      exact absurd hx Bool.noConfusion
  | succ n ihn =>
    exact pass_preserves_inv (envs (n + 1)) E cfg idFrom folder _
      (hcons (n + 1)) hids hpaths (hfold (n + 1)) _ ihn

/-- A sound, duplicate-free, complete reconciliation state has exactly one
index entry per eventually-loaded eligible file and exactly one
quarantined path per eventually-failed eligible file. -/
theorem complete_state_counts {Id : Type} [DecidableEq Id]
    (idFrom : String → Id) (cfg : Config) (E : Env) (folder : Folder)
    (hnd : folder.handles.Nodup)
    (hids : ∀ h1 ∈ folder.handles, ∀ h2 ∈ folder.handles, ∀ i : Id,
      eligId idFrom cfg h1 = some i → eligId idFrom cfg h2 = some i →
      h1 = h2)
    (hpaths : ∀ h1 ∈ folder.handles, ∀ h2 ∈ folder.handles,
      (eligId idFrom cfg h1).isSome = true →
      (eligId idFrom cfg h2).isSome = true →
      handlePathStr h1 = handlePathStr h2 → h1 = h2)
    (st : AssetFolderHandle × AssetFolder Id)
    (ha : ∀ x ∈ st.2.assets, GoodEntry idFrom cfg E folder x)
    (hb : ∀ p ∈ st.1.failed_paths, GoodFailedPath idFrom cfg E folder p)
    (hn1 : st.2.keyList.Nodup) (hn2 : st.1.failed_paths.Nodup)
    (hcomp : Complete idFrom cfg E folder st) :
    st.2.len = (loadedHandles idFrom cfg E folder).length ∧
    st.1.failed_paths.length = (failedHandles idFrom cfg E folder).length := by
  have hEnd : (eligibleHandles idFrom cfg folder).Nodup := hnd.filter _
  have hLnd : (loadedHandles idFrom cfg E folder).Nodup := hEnd.filter _
  have hFnd : (failedHandles idFrom cfg E folder).Nodup := hEnd.filter _
  have hLmem : ∀ h ∈ loadedHandles idFrom cfg E folder,
      h ∈ folder.handles ∧ (eligId idFrom cfg h).isSome = true ∧
        finalLoaded E h = true := by
    intro h hm
    rw [loadedHandles, List.mem_filter] at hm
    obtain ⟨hm1, hm2⟩ := hm
    rw [eligibleHandles, List.mem_filter] at hm1
    exact ⟨hm1.1, hm1.2, hm2⟩
  have hFmem : ∀ h ∈ failedHandles idFrom cfg E folder,
      h ∈ folder.handles ∧ (eligId idFrom cfg h).isSome = true ∧
        finalFailed E h = true := by
    intro h hm
    rw [failedHandles, List.mem_filter] at hm
    obtain ⟨hm1, hm2⟩ := hm
    rw [eligibleHandles, List.mem_filter] at hm1
    exact ⟨hm1.1, hm1.2, hm2⟩
  constructor
  · have hLIdsLen : ((loadedHandles idFrom cfg E folder).filterMap
        (eligId idFrom cfg)).length =
        (loadedHandles idFrom cfg E folder).length :=
      length_filterMap_of_isSome _ _ (fun x hx => (hLmem x hx).2.1)
    have hLIdsNd : ((loadedHandles idFrom cfg E folder).filterMap
        (eligId idFrom cfg)).Nodup :=
      nodup_filterMap_of_inj _ _ hLnd (fun x hx y hy b h1 h2 =>
        hids x (hLmem x hx).1 y (hLmem y hy).1 b h1 h2)
    have hsub1 : st.2.keyList ⊆ (loadedHandles idFrom cfg E folder).filterMap
        (eligId idFrom cfg) := by
      intro i hi
      rcases List.mem_map.1 hi with ⟨x, hx, hx1⟩
      obtain ⟨hxF, hxe, hxl⟩ := ha x hx
      refine List.mem_filterMap.2 ⟨x.2, ?_, by rw [hxe, hx1]⟩
      rw [loadedHandles, List.mem_filter]
      refine ⟨?_, hxl⟩
      rw [eligibleHandles, List.mem_filter]
      exact ⟨hxF, by rw [hxe]; rfl⟩
    have hsub2 : (loadedHandles idFrom cfg E folder).filterMap
        (eligId idFrom cfg) ⊆ st.2.keyList := by
      intro i hi
      rcases List.mem_filterMap.1 hi with ⟨h, hm, he⟩
      obtain ⟨hF, hS, hL⟩ := hLmem h hm
      exact (hcomp h hF i he).1 hL
    rw [AssetFolder.len_eq_keyList_length, ← hLIdsLen]
    exact Nat.le_antisymm ((hn1.subperm hsub1).length_le)
      ((hLIdsNd.subperm hsub2).length_le)
  · have hFPNd : ((failedHandles idFrom cfg E folder).map handlePathStr).Nodup :=
      hFnd.map_on (fun x hx y hy hxy =>
        hpaths x (hFmem x hx).1 y (hFmem y hy).1 (hFmem x hx).2.1
          (hFmem y hy).2.1 hxy)
    have hsub3 : st.1.failed_paths ⊆
        (failedHandles idFrom cfg E folder).map handlePathStr := by
      intro p hp
      obtain ⟨h, hF, hS, hFf, hps⟩ := hb p hp
      refine List.mem_map.2 ⟨h, ?_, hps⟩
      rw [failedHandles, List.mem_filter]
      refine ⟨?_, hFf⟩
      rw [eligibleHandles, List.mem_filter]
      exact ⟨hF, hS⟩
    have hsub4 : (failedHandles idFrom cfg E folder).map handlePathStr ⊆
        st.1.failed_paths := by
      intro p hp
      rcases List.mem_map.1 hp with ⟨h, hm, hps⟩
      obtain ⟨hF, hS, hFf⟩ := hFmem h hm
      obtain ⟨i, hi⟩ := Option.isSome_iff_exists.1 hS
      rw [← hps]
      exact (hcomp h hF i hi).2 hFf
    have hml : ((failedHandles idFrom cfg E folder).map handlePathStr).length =
        (failedHandles idFrom cfg E folder).length := by simp
    rw [← hml]
    exact Nat.le_antisymm ((hn2.subperm hsub3).length_le)
      ((hFPNd.subperm hsub4).length_le)

/-- C7 (counterexample): the claim as stated fails when two distinct
eligible files derive the same identifier. In `folderCol` both
`a/x.spell.ron` and `b/x.spell.ron` are eligible and eventually Loaded
with retrievable content (N = 2, M = 2, N − M = 0), yet no number of
passes ever reaches a state with the terminal flag set and
`Index.len() = 2`: the collision policy keeps a single entry. -/
theorem convergence_counts_ce :
    (loadedHandles (fun s => s) cfg0 envCol folderCol).length = 2 ∧
    (eligibleHandles (fun s : String => s) cfg0 folderCol).length = 2 ∧
    ¬ ∃ t, (runUpTo (fun _ => envCol) cfg0 (fun s => s)
          (AssetFolderHandle.new, AssetFolder.new) t).1.loaded = true ∧
        (runUpTo (fun _ => envCol) cfg0 (fun s => s)
          (AssetFolderHandle.new, AssetFolder.new) t).2.len = 2 ∧
        (runUpTo (fun _ => envCol) cfg0 (fun s => s)
          (AssetFolderHandle.new, AssetFolder.new) t).1.failed_paths.length
          = 2 - 2 := by
  refine ⟨by decide, by decide, ?_⟩
  have hfrozen : ∀ k, runUpTo (fun _ => envCol) cfg0 (fun s => s)
      (AssetFolderHandle.new, AssetFolder.new) (k + 2) =
      runUpTo (fun _ => envCol) cfg0 (fun s => s)
        (AssetFolderHandle.new, AssetFolder.new) 2 := by
    intro k
    induction k with
    | zero => rfl
    | succ k ihk =>
      show load_assets_from_folder envCol cfg0 (fun s => s)
        (runUpTo (fun _ => envCol) cfg0 (fun s => s)
          (AssetFolderHandle.new, AssetFolder.new) (k + 2)).1
        (runUpTo (fun _ => envCol) cfg0 (fun s => s)
          (AssetFolderHandle.new, AssetFolder.new) (k + 2)).2 = _
      rw [ihk]
      exact pass_terminal_id envCol cfg0 (fun s => s) _ _ (by decide)
        (by decide)
  rintro ⟨t, hloaded, hlen, -⟩
  match t with
  | 0 => exact Bool.noConfusion hloaded
  | 1 => exact Bool.noConfusion hloaded
  | (k + 2) =>
    rw [hfrozen k] at hlen
    exact absurd hlen (by decide)

/-- C7 (amended): for every folder of pairwise-distinct member files whose
eligible files have pairwise-distinct derived identifiers and
pairwise-distinct path strings, if the external loader's answers never
contradict its eventual verdicts and eventually (from time `T` on) every
eligible file is reported Loaded-with-content (M of them) or Failed
(N − M of them), then repeated invocation from the fresh state reaches,
after finitely many passes, a state whose terminal flag is true, whose
index length is M, and whose quarantined-path list has length N − M. -/
theorem convergence_of_distinct_ids {Id : Type} [DecidableEq Id]
    (idFrom : String → Id) (envs : Nat → Env) (cfg : Config) (E : Env)
    (folder : Folder) (T : Nat)
    (hstab : ∀ t, T ≤ t → envs t = E)
    (hfold : ∀ t,
      (envs t).loaded_folders ((envs 0).load_folder cfg.folder_path) =
        none ∨
      (envs t).loaded_folders ((envs 0).load_folder cfg.folder_path) =
        some folder)
    (havail : E.loaded_folders ((envs 0).load_folder cfg.folder_path) =
      some folder)
    (hnd : folder.handles.Nodup)
    (hcons : ∀ t, ∀ h ∈ folder.handles, consistentWith (envs t) E h)
    (hids : ∀ h1 ∈ folder.handles, ∀ h2 ∈ folder.handles, ∀ i : Id,
      eligId idFrom cfg h1 = some i → eligId idFrom cfg h2 = some i →
      h1 = h2)
    (hpaths : ∀ h1 ∈ folder.handles, ∀ h2 ∈ folder.handles,
      (eligId idFrom cfg h1).isSome = true →
      (eligId idFrom cfg h2).isSome = true →
      handlePathStr h1 = handlePathStr h2 → h1 = h2)
    (hdec : ∀ h ∈ folder.handles, (eligId idFrom cfg h).isSome = true →
      finalLoaded E h = true ∨ finalFailed E h = true) :
    ∃ t, (runUpTo envs cfg idFrom (AssetFolderHandle.new, AssetFolder.new)
        t).1.loaded = true ∧
      (runUpTo envs cfg idFrom (AssetFolderHandle.new, AssetFolder.new)
        t).2.len = (loadedHandles idFrom cfg E folder).length ∧
      (runUpTo envs cfg idFrom (AssetFolderHandle.new, AssetFolder.new)
        t).1.failed_paths.length =
        (eligibleHandles idFrom cfg folder).length -
          (loadedHandles idFrom cfg E folder).length := by
  have hcount : (failedHandles idFrom cfg E folder).length =
      (eligibleHandles idFrom cfg folder).length -
        (loadedHandles idFrom cfg E folder).length := by
    have hcongr : failedHandles idFrom cfg E folder =
        (eligibleHandles idFrom cfg folder).filter
          (fun h => !(finalLoaded E h)) := by
      rw [failedHandles]
      apply List.filter_congr
      intro h hm
      rw [eligibleHandles, List.mem_filter] at hm
      cases hL2 : finalLoaded E h with
      | true =>
        cases hFf : finalFailed E h with
        | true => exact (not_finalLoaded_and_failed E h hL2 hFf).elim
        | false => rfl
      | false =>
        rcases hdec h hm.1 hm.2 with hL | hF
        · rw [hL2] at hL
          exact Bool.noConfusion hL
        · rw [hF]
          rfl
    rw [hcongr]
    have hsplit := length_filter_add_length_not (finalLoaded E)
      (eligibleHandles idFrom cfg folder)
    simp only [loadedHandles]
    omega
  obtain ⟨hh, -, -, -, -, -⟩ := runUpTo_invariant envs E cfg idFrom folder
    hfold hcons hids hpaths T
  obtain ⟨-, ha2, hb2, hn12, hn22, hcomp2⟩ := runUpTo_invariant envs E cfg
    idFrom folder hfold hcons hids hpaths (T + 1)
  have hET : envs (T + 1) = E := hstab (T + 1) (by omega)
  have hstep : runUpTo envs cfg idFrom
      (AssetFolderHandle.new, AssetFolder.new) (T + 2) =
      load_assets_from_folder (envs (T + 1)) cfg idFrom
        (runUpTo envs cfg idFrom (AssetFolderHandle.new, AssetFolder.new)
          (T + 1)).1
        (runUpTo envs cfg idFrom (AssetFolderHandle.new, AssetFolder.new)
          (T + 1)).2 := rfl
  have hloaded : (runUpTo envs cfg idFrom
      (AssetFolderHandle.new, AssetFolder.new) (T + 2)).1.loaded = true := by
    by_cases hl : (runUpTo envs cfg idFrom
        (AssetFolderHandle.new, AssetFolder.new) (T + 1)).1.loaded = true
    · rw [hstep, pass_terminal_id (envs (T + 1)) cfg idFrom _ _ hl
        (by rw [hh]; rfl)]
      exact hl
    · have hl2 : (runUpTo envs cfg idFrom
          (AssetFolderHandle.new, AssetFolder.new) (T + 1)).1.loaded =
          false := by
        cases hx : (runUpTo envs cfg idFrom
            (AssetFolderHandle.new, AssetFolder.new) (T + 1)).1.loaded with
        | false => rfl
        | true => exact absurd hx hl
      rw [hstep, hET]
      apply pass_sets_terminal E cfg idFrom _ _
        ((envs 0).load_folder cfg.folder_path) folder hh hl2 havail
      rw [runPass]
      exact foldl_pending_stable E cfg idFrom folder.handles
        (fun hd hm i hi => hdec hd hm (by rw [hi]; rfl)) _
  refine ⟨T + 2, hloaded, ?_, ?_⟩
  · exact (complete_state_counts idFrom cfg E folder hnd hids hpaths _
      ha2 hb2 hn12 hn22 (hcomp2 hloaded)).1
  · rw [← hcount]
    exact (complete_state_counts idFrom cfg E folder hnd hids hpaths _
      ha2 hb2 hn12 hn22 (hcomp2 hloaded)).2

/-- Witness for the amended C7 on `folderMix` (N = 2 eligible files,
M = 1 eventually Loaded, 1 eventually Failed) under the constant external
world `envMix`. -/
theorem convergence_of_distinct_ids_witness :
    (loadedHandles (fun s : String => s) cfg0 envMix folderMix).length = 1 ∧
    (eligibleHandles (fun s : String => s) cfg0 folderMix).length = 2 ∧
    ∃ t, (runUpTo (fun _ => envMix) cfg0 (fun s => s)
        (AssetFolderHandle.new, AssetFolder.new) t).1.loaded = true ∧
      (runUpTo (fun _ => envMix) cfg0 (fun s => s)
        (AssetFolderHandle.new, AssetFolder.new) t).2.len =
        (loadedHandles (fun s : String => s) cfg0 envMix folderMix).length ∧
      (runUpTo (fun _ => envMix) cfg0 (fun s => s)
        (AssetFolderHandle.new, AssetFolder.new) t).1.failed_paths.length =
        (eligibleHandles (fun s : String => s) cfg0 folderMix).length -
          (loadedHandles (fun s : String => s) cfg0 envMix folderMix).length := by
  refine ⟨by decide, by decide, ?_⟩
  refine convergence_of_distinct_ids (fun s => s) (fun _ => envMix) cfg0
    envMix folderMix 0 (fun t _ => rfl) (fun t => Or.inr rfl) rfl
    (by decide) (fun t h hm => consistentWith_self envMix h) ?_ ?_ ?_
  · intro h1 hm1 h2 hm2 i he1 he2
    rw [show folderMix.handles = [handleOkA, handleBadB] from rfl] at hm1 hm2
    rcases List.mem_pair.1 hm1 with rfl | rfl <;>
      rcases List.mem_pair.1 hm2 with rfl | rfl
    · rfl
    · rw [show eligId (fun s : String => s) cfg0 handleOkA = some "a"
        from rfl] at he1
      rw [show eligId (fun s : String => s) cfg0 handleBadB = some "b"
        from rfl] at he2
      exact absurd (he2.trans he1.symm) (by decide)
    · rw [show eligId (fun s : String => s) cfg0 handleBadB = some "b"
        from rfl] at he1
      rw [show eligId (fun s : String => s) cfg0 handleOkA = some "a"
        from rfl] at he2
      exact absurd (he2.trans he1.symm) (by decide)
    · rfl
  · intro h1 hm1 h2 hm2 hs1 hs2 hpp
    rw [show folderMix.handles = [handleOkA, handleBadB] from rfl] at hm1 hm2
    rcases List.mem_pair.1 hm1 with rfl | rfl <;>
      rcases List.mem_pair.1 hm2 with rfl | rfl
    · rfl
    · exact absurd hpp (by decide)
    · exact absurd hpp (by decide)
    · rfl
  · intro h hm hs
    rw [show folderMix.handles = [handleOkA, handleBadB] from rfl] at hm
    rcases List.mem_pair.1 hm with rfl | rfl
    · exact Or.inl (by decide)
    · exact Or.inr (by decide)

end MsgLoadFolder
